import Mathlib

/-! WebAuthn login page script (`static/login.js`).

A shallow embedding of the two ceremonies driven by `static/login.js`
(`authenticate` and the click handler of the `#register` button) together
with the two platform/library services the script leans on: the binary codec
(`Base64.fromUint8Array`, `Base64.toUint8Array`) and the JSON text codec
(`JSON.stringify`, `JSON.parse`).

Every run of a ceremony is a pure function of a `World` (what the page input
holds, how the server answers each request, what the platform authenticator
does) and yields the ordered trace of observable effects plus the way the
`async` function settled.
-/

namespace LoginJs

/-! ## Binary codec -/

/-- One element of a `Uint8Array`. -/
abbrev Byte := Fin 256

namespace Base64

/-- The URL-safe alphabet: value `i` is written as the `i`-th character. -/
def b64chs : List Char :=
  "ABCDEFGHIJKLMNOPQRSTUVWXYZabcdefghijklmnopqrstuvwxyz0123456789-_".toList

/-- Character standing for a six-bit value. -/
def b64chr (n : Nat) : Char := b64chs.getD n 'A'

/-- Six-bit value of a character of the URL-safe alphabet, `none` for any
other character (in particular for `+`, `/` and `=`). -/
def b64tab (c : Char) : Option Nat :=
  if b64chs.contains c then some (b64chs.indexOf c) else none

/-- Six-bit groups of a byte sequence, three bytes giving four groups; a
final group of one byte gives two groups and of two bytes three groups, the
missing low bits being zero. -/
def sextets : List Byte → List Nat
  | [] => []
  | [a] => [a.val / 4, a.val % 4 * 16]
  | [a, b] => [a.val / 4, a.val % 4 * 16 + b.val / 16, b.val % 16 * 4]
  | a :: b :: c :: rest =>
      a.val / 4 :: (a.val % 4 * 16 + b.val / 16) :: (b.val % 16 * 4 + c.val / 64)
        :: c.val % 64 :: sextets rest

/-- Bytes rebuilt from six-bit groups, four groups giving three bytes; a
final run of two groups gives one byte and of three groups two bytes, a
single left-over group is malformed. -/
def unsextets : List Nat → Option (List Byte)
  | [] => some []
  | [_] => none
  | [s0, s1] => some [Fin.ofNat (s0 * 4 + s1 / 16)]
  | [s0, s1, s2] => some [Fin.ofNat (s0 * 4 + s1 / 16), Fin.ofNat (s1 % 16 * 16 + s2 / 4)]
  | s0 :: s1 :: s2 :: s3 :: rest =>
      match unsextets rest with
      | none => none
      | some bs =>
          some (Fin.ofNat (s0 * 4 + s1 / 16) :: Fin.ofNat (s1 % 16 * 16 + s2 / 4)
            :: Fin.ofNat (s2 % 4 * 64 + s3) :: bs)

/-- Six-bit values of a text, `none` as soon as one character is outside
the alphabet. -/
def lookupAll : List Char → Option (List Nat)
  | [] => some []
  | c :: cs =>
      match b64tab c, lookupAll cs with
      | some s, some ss => some (s :: ss)
      | _, _ => none

/-- Modelled from the spec: `Base64.fromUint8Array(u8a, true)` of the
js-base64 library, which the page loads and `login.js` calls but which is not
part of the sources. The spec's `encode(bytes) -> text`: URL-safe,
unpadded base64 text, defined for all byte sequences including the empty
one. -/
def fromUint8Array (u8a : List Byte) : String :=
  String.mk ((sextets u8a).map b64chr)

/-- Modelled from the spec: `Base64.toUint8Array(text)` of the js-base64
library, not part of the sources. The spec's `decode(text) -> bytes`:
interprets URL-safe, unpadded base64 text; `none` stands for the
`EncodingError` raised on a character outside the alphabet or on a
malformed length. -/
def toUint8Array (a : String) : Option (List Byte) :=
  match lookupAll a.toList with
  | none => none
  | some ss => unsextets ss

end Base64

/-! ## JavaScript values and the JSON text codec

`JSON.stringify` and `JSON.parse` are built into the platform; they are
written out here after ECMA-262 (`SerializeJSONProperty`, `QuoteJSONString`,
the JSON grammar, `CreateDataProperty` and property enumeration order), on
the values described at `JSVal`. -/

/-- A JavaScript `Number` as `JSON.parse` can return it (never `NaN`). The
integers of magnitude up to `2^53` are all Numbers and are held as `int`;
the negative zero and the infinities are held as such; any other finite
Number is held as `other text`, where `text` is its `Number::toString`, which
tells such Numbers apart. -/
inductive Number where
  | int (n : Int)
  | negZero
  | infinity (negative : Bool)
  | other (text : String)

/-- The JavaScript values this page handles: what `JSON.parse` can return,
plus `undefined` and `Uint8Array`. A `String` is a sequence of Unicode scalar
values (no lone surrogates), and an object is its own enumerable properties
in enumeration order. -/
inductive JSVal where
  | undefined
  | null
  | bool (b : Bool)
  | num (x : Number)
  | str (s : String)
  | u8a (b : List Byte)
  | arr (xs : List JSVal)
  | obj (kvs : List (String × JSVal))

namespace JSON

/-- Lower-case hexadecimal digit. -/
def hexDigit (n : Nat) : Char := "0123456789abcdef".toList.getD n '0'

/-- Decimal digits of `n`, most significant first, pushed in front of `acc`. -/
def digitsAux : Nat → Nat → List Char → List Char
  | 0, _, acc => acc
  | fuel + 1, n, acc =>
      if n < 10 then Char.ofNat (48 + n) :: acc
      else digitsAux fuel (n / 10) (Char.ofNat (48 + n % 10) :: acc)

/-- `Number::toString` of a non-negative integer. -/
def decimal (n : Nat) : List Char := digitsAux (n + 1) n []

/-- One code point of `QuoteJSONString`. -/
def quoteChar (c : Char) : List Char :=
  if c = '\"' then ['\\', '\"']
  else if c = '\\' then ['\\', '\\']
  else if c.toNat = 8 then ['\\', 'b']
  else if c.toNat = 12 then ['\\', 'f']
  else if c = '\n' then ['\\', 'n']
  else if c = '\r' then ['\\', 'r']
  else if c = '\t' then ['\\', 't']
  else if c.toNat < 32 then
    ['\\', 'u', '0', '0', hexDigit (c.toNat / 16), hexDigit (c.toNat % 16)]
  else [c]

/-- Escaped code points followed by the closing quote. -/
def quoteChars : List Char → List Char
  | [] => ['\"']
  | c :: cs => quoteChar c ++ quoteChars cs

/-- `QuoteJSONString`. -/
def quote (s : String) : List Char := '\"' :: quoteChars s.toList

/-- Properties of a `Uint8Array` from index `i` on, up to the closing brace. -/
def serBytes : Nat → Bool → List Byte → List Char
  | _, _, [] => ['}']
  | i, first, b :: bs =>
      (if first then [] else [',']) ++ ('\"' :: decimal i ++ ['\"', ':']) ++ decimal b.val
        ++ serBytes (i + 1) false bs

mutual
/-- `SerializeJSONProperty` without replacer and without indentation. An
`undefined` array element is written `null`; a property whose value is
`undefined` is left out; a Number that is not finite is written `null`,
the negative zero `0`. -/
def ser : JSVal → List Char
  | .undefined => "null".toList
  | .null => "null".toList
  | .bool true => "true".toList
  | .bool false => "false".toList
  | .num (.int (.ofNat n)) => decimal n
  | .num (.int (.negSucc n)) => '-' :: decimal (n + 1)
  | .num .negZero => ['0']
  | .num (.infinity _) => "null".toList
  | .num (.other text) => text.toList
  | .str s => quote s
  | .u8a b => '{' :: serBytes 0 true b
  | .arr xs => '[' :: serElems true xs
  | .obj kvs => '{' :: serMembers true kvs
/-- Elements of an array up to the closing bracket. -/
def serElems : Bool → List JSVal → List Char
  | _, [] => [']']
  | first, v :: vs => (if first then [] else [',']) ++ ser v ++ serElems false vs
/-- Properties of an object up to the closing brace. -/
def serMembers : Bool → List (String × JSVal) → List Char
  | _, [] => ['}']
  | first, (_, .undefined) :: kvs => serMembers first kvs
  | first, (k, v) :: kvs =>
      (if first then [] else [',']) ++ quote k ++ ':' :: ser v ++ serMembers false kvs
end

/-- `JSON.stringify(v)` for a value that is not `undefined` itself. -/
def stringify (v : JSVal) : String := String.mk (ser v)

/-- JSON white space. -/
def isWs (c : Char) : Bool := c = ' ' || c = '\t' || c = '\n' || c = '\r'

/-- Drops leading white space. -/
def skipWs : List Char → List Char
  | [] => []
  | c :: cs => if isWs c then skipWs cs else c :: cs

/-- Consumes the literal `lit` from the front of the text. -/
def expect : List Char → List Char → Option (List Char)
  | [], cs => some cs
  | _ :: _, [] => none
  | l :: ls, c :: cs => if l = c then expect ls cs else none

/-- Decimal digit test. -/
def isDigit (c : Char) : Bool := decide (48 ≤ c.toNat) && decide (c.toNat ≤ 57)

/-- Value of a hexadecimal digit of either case. -/
def hexVal (c : Char) : Option Nat :=
  if 48 ≤ c.toNat ∧ c.toNat ≤ 57 then some (c.toNat - 48)
  else if 97 ≤ c.toNat ∧ c.toNat ≤ 102 then some (c.toNat - 87)
  else if 65 ≤ c.toNat ∧ c.toNat ≤ 70 then some (c.toNat - 55)
  else none

/-- Four hexadecimal digits of a `\u` escape. -/
def hex4 : List Char → Option (Nat × List Char)
  | a :: b :: c :: d :: rest =>
      match hexVal a, hexVal b, hexVal c, hexVal d with
      | some x, some y, some z, some w => some (((x * 16 + y) * 16 + z) * 16 + w, rest)
      | _, _, _, _ => none
  | _ => none

/-- Adds a decoded character in front of the rest of a string body. -/
def consChar (c : Char) : Option (List Char × List Char) → Option (List Char × List Char)
  | some (s, rest) => some (c :: s, rest)
  | none => none

/-- Body of a JSON string after the opening quote: the decoded characters
and the text after the closing quote. A `\u` escape of a high surrogate must
be followed by the `\u` escape of a low surrogate, the two giving one
character; a lone surrogate is outside the model. -/
def parseChars : Nat → List Char → Option (List Char × List Char)
  | 0, _ => none
  | _ + 1, [] => none
  | fuel + 1, c :: cs =>
      if c = '\"' then some ([], cs)
      else if c = '\\' then
        match cs with
        | [] => none
        | e :: rest =>
            if e = '\"' then consChar '\"' (parseChars fuel rest)
            else if e = '\\' then consChar '\\' (parseChars fuel rest)
            else if e = '/' then consChar '/' (parseChars fuel rest)
            else if e = 'b' then consChar (Char.ofNat 8) (parseChars fuel rest)
            else if e = 'f' then consChar (Char.ofNat 12) (parseChars fuel rest)
            else if e = 'n' then consChar '\n' (parseChars fuel rest)
            else if e = 'r' then consChar '\r' (parseChars fuel rest)
            else if e = 't' then consChar '\t' (parseChars fuel rest)
            else if e = 'u' then
              match hex4 rest with
              | none => none
              | some (n, rest1) =>
                  if 0xD800 ≤ n ∧ n < 0xDC00 then
                    match expect ['\\', 'u'] rest1 with
                    | none => none
                    | some rest2 =>
                        match hex4 rest2 with
                        | none => none
                        | some (m, rest3) =>
                            if 0xDC00 ≤ m ∧ m < 0xE000 then
                              consChar (Char.ofNat (0x10000 + (n - 0xD800) * 0x400 + (m - 0xDC00)))
                                (parseChars fuel rest3)
                            else none
                  else if 0xDC00 ≤ n ∧ n < 0xE000 then none
                  else consChar (Char.ofNat n) (parseChars fuel rest1)
            else none
      else if c.toNat < 32 then none
      else consChar c (parseChars fuel cs)

/-- A JSON string: opening quote, body, closing quote. -/
def parseString (cs : List Char) : Option (String × List Char) :=
  match cs with
  | [] => none
  | c :: rest =>
      if c = '\"' then
        match parseChars (rest.length + 1) rest with
        | some (s, rest1) => some (String.mk s, rest1)
        | none => none
      else none

/-- Reads decimal digits, accumulating their value. -/
def parseDigits : List Char → Nat → Nat × List Char
  | [], acc => (acc, [])
  | c :: cs, acc =>
      if isDigit c then parseDigits cs (acc * 10 + (c.toNat - 48)) else (acc, c :: cs)

/-- The integer part of a JSON number: `0`, or a non-zero digit followed by
digits. -/
def parseNat (cs : List Char) : Option (Nat × List Char) :=
  match cs with
  | [] => none
  | c :: rest =>
      if c = '0' then
        match rest with
        | [] => some (0, [])
        | d :: rest1 => if isDigit d then none else some (0, d :: rest1)
      else if isDigit c then some (parseDigits (c :: rest) 0)
      else none

/-- `Number.MAX_SAFE_INTEGER`, `2^53 - 1`. -/
def maxSafeInteger : Nat := 9007199254740991

/-- `2^53`: up to here every integer is a Number. -/
def twoTo53 : Nat := 9007199254740992

/-- The fraction of a number literal, if the text goes on with one: a point
and at least one digit. Tells whether there was one and what follows it;
`none` for a point without a digit. -/
def skipFraction : List Char → Option (Bool × List Char)
  | [] => some (false, [])
  | c :: cs =>
      if c = '.' then
        match cs with
        | [] => none
        | d :: ds => if isDigit d then some (true, (parseDigits (d :: ds) 0).2) else none
      else some (false, c :: cs)

/-- The exponent of a number literal, if the text goes on with one: `e` or
`E`, an optional sign and at least one digit. Tells whether there was one
and what follows it; `none` for an exponent without a digit. -/
def skipExponent : List Char → Option (Bool × List Char)
  | [] => some (false, [])
  | c :: cs =>
      if c = 'e' ∨ c = 'E' then
        match cs with
        | [] => none
        | s :: ds =>
            if s = '+' ∨ s = '-' then
              match ds with
              | [] => none
              | d :: ds1 =>
                  if isDigit d then some (true, (parseDigits (d :: ds1) 0).2) else none
            else if isDigit s then some (true, (parseDigits (s :: ds) 0).2)
            else none
      else some (false, c :: cs)

/-- The text that was read: `cs` without its unread end `rest`. -/
def consumed (cs rest : List Char) : String :=
  String.mk (cs.take (cs.length - rest.length))

/-- A JSON number: an optional minus sign, an integer part, an optional
fraction, an optional exponent; `none` only when the text is not a number
literal. A literal without fraction and exponent whose integer part is at
most `2^53 + 1` is read here: it denotes itself, except that `2^53 + 1`,
which is no Number, is read as its nearest Number `2^53` (the tie goes to the
even significand) and `-0` as the negative zero. The Number of every other
literal is a matter of floating point and is taken from `numberOf`, which is
given the text of the literal. -/
def parseNumber (numberOf : String → Number) (cs : List Char) :
    Option (Number × List Char) :=
  match cs with
  | [] => none
  | c :: rest =>
      match parseNat (if c = '-' then rest else c :: rest) with
      | none => none
      | some (n, rest1) =>
          match skipFraction rest1 with
          | none => none
          | some (fraction, rest2) =>
              match skipExponent rest2 with
              | none => none
              | some (exponent, rest3) =>
                  if fraction = true ∨ exponent = true ∨ twoTo53 + 1 < n then
                    some (numberOf (consumed (c :: rest) rest3), rest3)
                  else if c = '-' then
                    if n = 0 then some (.negZero, rest3)
                    else some (.int (Int.negSucc (min n twoTo53 - 1)), rest3)
                  else some (.int (Int.ofNat (min n twoTo53)), rest3)

/-- Whether a property key is an array index: the canonical decimal text of
an integer below `2^32 - 1`. -/
def arrayIndex (k : String) : Option Nat :=
  match k.toList with
  | [] => none
  | c :: cs =>
      if (c :: cs).all isDigit && (c != '0' || cs.isEmpty) && decide (cs.length < 10) then
        if (parseDigits (c :: cs) 0).1 < 4294967295 then some (parseDigits (c :: cs) 0).1
        else none
      else none

/-- Places a new array-index property `n` among the leading array-index
properties, in ascending order. -/
def insertIndex (k : String) (n : Nat) (v : JSVal) :
    List (String × JSVal) → List (String × JSVal)
  | [] => [(k, v)]
  | (k1, v1) :: kvs =>
      match arrayIndex k1 with
      | some m => if m < n then (k1, v1) :: insertIndex k n v kvs else (k, v) :: (k1, v1) :: kvs
      | none => (k, v) :: (k1, v1) :: kvs

/-- The value of the own property `k`, if there is one. -/
def own (k : String) : List (String × JSVal) → Option JSVal
  | [] => none
  | (k1, v1) :: kvs => if k1 = k then some v1 else own k kvs

/-- Overwrites the value of an existing property, its place unchanged. -/
def replaceValue (k : String) (v : JSVal) : List (String × JSVal) → List (String × JSVal)
  | [] => []
  | (k1, v1) :: kvs => if k1 = k then (k1, v) :: kvs else (k1, v1) :: replaceValue k v kvs

/-- `CreateDataProperty` on an ordinary object, seen through property
enumeration order: an existing key keeps its place, a new array index goes
among the array indices in ascending order, any other new key goes last. -/
def createDataProperty (kvs : List (String × JSVal)) (k : String) (v : JSVal) :
    List (String × JSVal) :=
  if kvs.any (fun p => p.1 = k) then replaceValue k v kvs
  else
    match arrayIndex k with
    | some n => insertIndex k n v kvs
    | none => kvs ++ [(k, v)]

/-- The object built from the members of an object literal, in text order. -/
def buildObject (members : List (String × JSVal)) : List (String × JSVal) :=
  members.foldl (fun acc p => createDataProperty acc p.1 p.2) []

mutual
/-- A JSON value with the white space before it; the value and the text
after it. -/
def parseValue (numberOf : String → Number) :
    Nat → List Char → Option (JSVal × List Char)
  | 0, _ => none
  | fuel + 1, cs =>
      match skipWs cs with
      | [] => none
      | c :: rest =>
          if c = '[' then
            match skipWs rest with
            | [] => none
            | d :: rest1 =>
                if d = ']' then some (.arr [], rest1)
                else
                  match parseValue numberOf fuel (d :: rest1) with
                  | none => none
                  | some (v, rest2) =>
                      match parseElems numberOf fuel rest2 with
                      | none => none
                      | some (vs, rest3) => some (.arr (v :: vs), rest3)
          else if c = '{' then
            match skipWs rest with
            | [] => none
            | d :: rest1 =>
                if d = '}' then some (.obj [], rest1)
                else
                  match parseMember numberOf fuel (d :: rest1) with
                  | none => none
                  | some (m, rest2) =>
                      match parseMembers numberOf fuel rest2 with
                      | none => none
                      | some (ms, rest3) => some (.obj (buildObject (m :: ms)), rest3)
          else if c = '\"' then
            match parseString (c :: rest) with
            | none => none
            | some (s, rest1) => some (.str s, rest1)
          else if c = 'n' then
            match expect "null".toList (c :: rest) with
            | none => none
            | some rest1 => some (.null, rest1)
          else if c = 't' then
            match expect "true".toList (c :: rest) with
            | none => none
            | some rest1 => some (.bool true, rest1)
          else if c = 'f' then
            match expect "false".toList (c :: rest) with
            | none => none
            | some rest1 => some (.bool false, rest1)
          else
            match parseNumber numberOf (c :: rest) with
            | none => none
            | some (n, rest1) => some (.num n, rest1)
/-- The rest of an array after an element: `, value` any number of times,
then the closing bracket. -/
def parseElems (numberOf : String → Number) :
    Nat → List Char → Option (List JSVal × List Char)
  | 0, _ => none
  | fuel + 1, cs =>
      match skipWs cs with
      | [] => none
      | c :: rest =>
          if c = ']' then some ([], rest)
          else if c = ',' then
            match parseValue numberOf fuel rest with
            | none => none
            | some (v, rest1) =>
                match parseElems numberOf fuel rest1 with
                | none => none
                | some (vs, rest2) => some (v :: vs, rest2)
          else none
/-- One member of an object: a string key, a colon, a value. -/
def parseMember (numberOf : String → Number) :
    Nat → List Char → Option ((String × JSVal) × List Char)
  | 0, _ => none
  | fuel + 1, cs =>
      match parseString (skipWs cs) with
      | none => none
      | some (k, rest) =>
          match skipWs rest with
          | [] => none
          | c :: rest1 =>
              if c = ':' then
                match parseValue numberOf fuel rest1 with
                | none => none
                | some (v, rest2) => some ((k, v), rest2)
              else none
/-- The rest of an object after a member: `, member` any number of times,
then the closing brace. -/
def parseMembers (numberOf : String → Number) :
    Nat → List Char → Option (List (String × JSVal) × List Char)
  | 0, _ => none
  | fuel + 1, cs =>
      match skipWs cs with
      | [] => none
      | c :: rest =>
          if c = '}' then some ([], rest)
          else if c = ',' then
            match parseMember numberOf fuel rest with
            | none => none
            | some (m, rest1) =>
                match parseMembers numberOf fuel rest1 with
                | none => none
                | some (ms, rest2) => some (m :: ms, rest2)
          else none
end

/-- `JSON.parse(text)`: one value, white space around it allowed, nothing
else after it. `none` when the text is not JSON (`SyntaxError`) or holds the
escape of a lone surrogate. `numberOf` is the platform's reading of the
number literals that `parseNumber` does not read itself. -/
def parse (numberOf : String → Number) (text : String) : Option JSVal :=
  match parseValue numberOf (text.length + 1) text.toList with
  | none => none
  | some (v, rest) => if (skipWs rest).isEmpty then some v else none

end JSON

namespace JSON

/-- Ordering of two neighbouring keys in property enumeration order: array
indices ascending, and no array index after another key. -/
def keyBefore (k1 k2 : String) : Bool :=
  match arrayIndex k1, arrayIndex k2 with
  | some a, some b => decide (a < b)
  | some _, none => true
  | none, some _ => false
  | none, none => true

/-- Keys in property enumeration order. -/
def keysOrdered : List String → Bool
  | [] => true
  | [_] => true
  | k1 :: k2 :: ks => keyBefore k1 k2 && keysOrdered (k2 :: ks)

/-- Keys of an ordinary object: pairwise different and in enumeration order. -/
def keysNormal (ks : List String) : Bool := decide ks.Nodup && keysOrdered ks

mutual
/-- The values that `JSON.stringify` writes and `JSON.parse` reads back
unchanged: no `undefined`, no `Uint8Array`, every Number a safe integer,
object keys as an ordinary object holds them. -/
def isJson : JSVal → Bool
  | .undefined => false
  | .null => true
  | .bool _ => true
  | .num (.int n) => decide (n.natAbs ≤ maxSafeInteger)
  | .num _ => false
  | .str _ => true
  | .u8a _ => false
  | .arr xs => allJson xs
  | .obj kvs => keysNormal (memberKeys kvs) && allJsonMembers kvs
/-- Every element is a JSON value. -/
def allJson : List JSVal → Bool
  | [] => true
  | v :: vs => isJson v && allJson vs
/-- Every property value is a JSON value. -/
def allJsonMembers : List (String × JSVal) → Bool
  | [] => true
  | (_, v) :: kvs => isJson v && allJsonMembers kvs
/-- Keys of the properties, in order. -/
def memberKeys : List (String × JSVal) → List String
  | [] => []
  | (k, _) :: kvs => k :: memberKeys kvs
end

mutual
/-- Nesting measure of a value, a lower bound of the length of its text. -/
def size : JSVal → Nat
  | .arr xs => sizeElems xs
  | .obj kvs => sizeMembers kvs
  | _ => 1
/-- Measure of the elements of an array. -/
def sizeElems : List JSVal → Nat
  | [] => 1
  | v :: vs => 1 + size v + sizeElems vs
/-- Measure of the properties of an object. -/
def sizeMembers : List (String × JSVal) → Nat
  | [] => 1
  | (_, v) :: kvs => 2 + size v + sizeMembers kvs
end

mutual
/-- Whether every Number inside the value is a safe integer, of magnitude at
most `maxSafeInteger`. -/
def numbersSafe : JSVal → Bool
  | .num (.int n) => decide (n.natAbs ≤ maxSafeInteger)
  | .num _ => false
  | .arr xs => allSafe xs
  | .obj kvs => allSafeMembers kvs
  | _ => true
/-- Whether every Number inside the elements is a safe integer. -/
def allSafe : List JSVal → Bool
  | [] => true
  | v :: vs => numbersSafe v && allSafe vs
/-- Whether every Number inside the property values is a safe integer. -/
def allSafeMembers : List (String × JSVal) → Bool
  | [] => true
  | (_, v) :: kvs => numbersSafe v && allSafeMembers kvs
end

end JSON

namespace JSON

/-- Value read from a run of digits. -/
def digitsValue (acc : Nat) (ds : List Char) : Nat :=
  ds.foldl (fun a c => a * 10 + (c.toNat - 48)) acc

/-- The text after a value: nothing, or a comma, or a closing bracket or
brace. -/
def tailOk : List Char → Bool
  | [] => true
  | c :: _ => c = ',' || c = ']' || c = '}'

/-- A character that starts a serialized value: not white space, not a
closing bracket or brace, not a comma. -/
def startsValue (c : Char) : Bool :=
  !isWs c && c != ']' && c != '}' && c != ','

/-- Whether `a` may stand right before the keys `l`. -/
def headBefore (a : String) : List String → Bool
  | [] => true
  | b :: _ => keyBefore a b

end JSON

/-! ## The page environment -/

/-- The argument of a `fetch` call as this script builds it: the address,
the `method`, the `body` and the `Content-type` header. -/
structure Request where
  url : String
  method : String
  body : String
  contentType : String

/-- What the promise returned by `fetch` settles to: a rejection (network
failure), or a response with its status code and its body text. `fetch`
resolves for every status code. -/
inductive FetchResult where
  | networkError
  | response (status : Nat) (body : String)

/-- A response the script holds. -/
structure Response where
  status : Nat
  body : String

/-- The `PublicKeyCredential` of an assertion (`navigator.credentials.get`).
`userHandle` may be `null`. -/
structure Assertion where
  id : String
  rawId : List Byte
  authenticatorData : List Byte
  clientDataJSON : List Byte
  signature : List Byte
  userHandle : Option (List Byte)
  type : String

/-- The `PublicKeyCredential` of an attestation
(`navigator.credentials.create`). -/
structure Attestation where
  id : String
  rawId : List Byte
  attestationObject : List Byte
  clientDataJSON : List Byte
  type : String

/-- What the promise of an authenticator call settles to: a rejection, or a
credential, or `null`. -/
inductive Settled (α : Type) where
  | rejected
  | resolved (credential : Option α)

/-- Everything outside the script. `name_value n` is what
`document.querySelector("input").value` holds during the `n`-th stretch of
the handler: `0` when the handler starts, `1` when the authentication
chained after a registration starts (the page stays editable while the
handler waits). The server and the authenticator answer as functions of
what they are sent. `numberOf` is the platform's floating point: the Number
`JSON.parse` makes of a number literal with a fraction, with an exponent or
above `2^53 + 1`. -/
structure World where
  numberOf : String → Number
  name_value : Nat → String
  fetch : Request → FetchResult
  credentialsGet : JSVal → Settled Assertion
  credentialsCreate : JSVal → Settled Attestation

/-- Observable effects of the script, in the order they happen. -/
inductive Effect where
  | fetch (request : Request)
  | credentialsGet (options : JSVal)
  | credentialsCreate (options : JSVal)
  | cookie (value : String)
  | location (href : String)

/-- Exceptions that end an `async` function early. -/
inductive Err where
  | typeError
  | syntaxError
  | networkError
  | encodingError
  | notAllowedError
deriving DecidableEq

/-- A finished run of an `async` function: the effects it had and how its
promise settled (`ok` fulfilled, `error` rejected). -/
structure Run (α : Type) where
  trace : List Effect
  outcome : Except Err α

namespace Run

/-- Sequencing: a rejection skips everything after it. -/
def bind {α β : Type} (x : Run α) (f : α → Run β) : Run β :=
  match x.outcome with
  | .ok a => ⟨x.trace ++ (f a).trace, (f a).outcome⟩
  | .error e => ⟨x.trace, .error e⟩

instance : Monad Run where
  pure a := ⟨[], .ok a⟩
  bind := bind

/-- A computation without effects. -/
def lift {α : Type} (r : Except Err α) : Run α := ⟨[], r⟩

end Run

/-- Whether the effect is a request to the given address. -/
def Effect.isFetchTo (url : String) : Effect → Bool
  | .fetch r => r.url = url
  | _ => false

/-- Whether the effect is a call of the platform authenticator. -/
def Effect.isAuthenticatorCall : Effect → Bool
  | .credentialsGet _ => true
  | .credentialsCreate _ => true
  | _ => false

/-- Whether the effect is a `navigator.credentials.get` call. -/
def Effect.isCredentialsGet : Effect → Bool
  | .credentialsGet _ => true
  | _ => false

/-- Whether the effect is a network call. -/
def Effect.isFetch : Effect → Bool
  | .fetch _ => true
  | _ => false

/-- Whether the effect writes the cookie store. -/
def Effect.isCookie : Effect → Bool
  | .cookie _ => true
  | _ => false

/-- Whether the effect navigates. -/
def Effect.isLocation : Effect → Bool
  | .location _ => true
  | _ => false

/-! ## Platform operations the script calls -/

/-- `await fetch(url, init)`. -/
def fetch (w : World) (r : Request) : Run Response :=
  ⟨[.fetch r],
    match w.fetch r with
    | .networkError => .error .networkError
    | .response status body => .ok ⟨status, body⟩⟩

/-- `await response.json()`. -/
def Response.json (r : Response) (numberOf : String → Number) : Run JSVal :=
  Run.lift (match JSON.parse numberOf r.body with
    | some v => .ok v
    | none => .error .syntaxError)

/-- `await response.text()`. -/
def Response.text (r : Response) : Run String := pure r.body

/-- `await navigator.credentials.get(options)`. -/
def navigator.credentials.get (w : World) (options : JSVal) : Run (Option Assertion) :=
  ⟨[.credentialsGet options],
    match w.credentialsGet options with
    | .rejected => .error .notAllowedError
    | .resolved c => .ok c⟩

/-- `await navigator.credentials.create(options)`. -/
def navigator.credentials.create (w : World) (options : JSVal) : Run (Option Attestation) :=
  ⟨[.credentialsCreate options],
    match w.credentialsCreate options with
    | .rejected => .error .notAllowedError
    | .resolved c => .ok c⟩

/-- `document.cookie = value`. -/
def setCookie (value : String) : Run Unit := ⟨[.cookie value], .ok ()⟩

/-- `window.location.href = href`. -/
def setLocation (href : String) : Run Unit := ⟨[.location href], .ok ()⟩

/-- `const [a, b] = value`: the first two items the value iterates over,
`undefined` for a missing one; a `TypeError` when the value is not
iterable. -/
def destructure2 : JSVal → Except Err (JSVal × JSVal)
  | .arr xs => .ok (xs.getD 0 .undefined, xs.getD 1 .undefined)
  | .str s =>
      .ok (((s.toList.map fun c => JSVal.str (String.mk [c])).getD 0 .undefined),
        ((s.toList.map fun c => JSVal.str (String.mk [c])).getD 1 .undefined))
  | .u8a b =>
      .ok (((b.map fun x => JSVal.num (.int x.val)).getD 0 .undefined),
        ((b.map fun x => JSVal.num (.int x.val)).getD 1 .undefined))
  | _ => .error .typeError

/-- The read `v.k` for the names this script reads (`publicKey`,
`challenge`, `allowCredentials`, `user`, `id`): a `TypeError` on `undefined`
and `null`, the own property of an object, and `undefined` on every other
value, none of which defines such a name. -/
def JSVal.prop (v : JSVal) (k : String) : Except Err JSVal :=
  match v with
  | .undefined => .error .typeError
  | .null => .error .typeError
  | .obj kvs => .ok ((JSON.own k kvs).getD .undefined)
  | _ => .ok .undefined

/-- The write `o.k = x` on an object; the script writes only where it has
just read a string, so the target is an object. -/
def JSVal.assign (o : JSVal) (k : String) (x : JSVal) : JSVal :=
  match o with
  | .obj kvs => .obj (JSON.createDataProperty kvs k x)
  | other => other

/-- `Base64.toUint8Array(x)` on a JavaScript value: only a string has the
text methods the library calls. -/
def toUint8ArrayOf : JSVal → Except Err JSVal
  | .str s =>
      match Base64.toUint8Array s with
      | some b => .ok (.u8a b)
      | none => .error .encodingError
  | _ => .error .typeError

/-- `o.k = Base64.toUint8Array(o.k)`. -/
def decodeProp (o : JSVal) (k : String) : Except Err JSVal :=
  match o.prop k with
  | .error e => .error e
  | .ok x =>
      match toUint8ArrayOf x with
      | .error e => .error e
      | .ok b => .ok (o.assign k b)

/-- `items.forEach((item) => item.id = Base64.toUint8Array(item.id))`. -/
def forEachDecodeId : List JSVal → Except Err (List JSVal)
  | [] => .ok []
  | item :: items =>
      match decodeProp item "id" with
      | .error e => .error e
      | .ok item1 =>
          match forEachDecodeId items with
          | .error e => .error e
          | .ok items1 => .ok (item1 :: items1)

/-- `new Uint8Array(buffer)`; of `null` it is empty. -/
def newUint8Array : Option (List Byte) → List Byte
  | some b => b
  | none => []

/-- The `init` argument both ceremonies pass to `fetch`. -/
def post (url body : String) : Request :=
  { url := url, method := "POST", body := body,
    contentType := "application/json; charset=UTF-8" }

/-! ## `static/login.js` -/

/-- Lines 21-22: the two decoding statements of `authenticate`, on the
`options` object. -/
def decodeLoginOptions (options : JSVal) : Except Err JSVal :=
  match options.prop "publicKey" with
  | .error e => .error e
  | .ok publicKey =>
      match decodeProp publicKey "challenge" with
      | .error e => .error e
      | .ok publicKey1 =>
          match publicKey1.prop "allowCredentials" with
          | .error e => .error e
          | .ok (.arr items) =>
              match forEachDecodeId items with
              | .error e => .error e
              | .ok items1 =>
                  .ok (options.assign "publicKey" (publicKey1.assign "allowCredentials" (.arr items1)))
          | .ok _ => .error .typeError

/-- Lines 28-38: the body of the `/finish-login` request. -/
def finishLoginBody (id : JSVal) (credential : Assertion) : String :=
  JSON.stringify (.arr [id, .obj [
    ("id", .str credential.id),
    ("rawId", .str (Base64.fromUint8Array (newUint8Array (some credential.rawId)))),
    ("response", .obj [
      ("authenticatorData",
        .str (Base64.fromUint8Array (newUint8Array (some credential.authenticatorData)))),
      ("clientDataJSON",
        .str (Base64.fromUint8Array (newUint8Array (some credential.clientDataJSON)))),
      ("signature", .str (Base64.fromUint8Array (newUint8Array (some credential.signature)))),
      ("userHandle", .str (Base64.fromUint8Array (newUint8Array credential.userHandle)))]),
    ("type", .str credential.type)]])

/-- Lines 6-47: `authenticate`, started in stretch `t` of the handler. -/
def authenticate (w : World) (t : Nat) : Run Unit :=
  if w.name_value t = "" then pure ()
  else do
    let response ← fetch w (post "/start-login"
      (JSON.stringify (.obj [("name", .str (w.name_value t))])))
    let value ← response.json w.numberOf
    let (options, id) ← Run.lift (destructure2 value)
    let options ← Run.lift (decodeLoginOptions options)
    let credential ← navigator.credentials.get w options
    let credential ← Run.lift (match credential with
      | some c => .ok c
      | none => .error .typeError)
    let response ← fetch w (post "/finish-login" (finishLoginBody id credential))
    let token ← response.text
    setCookie ("SessionToken=" ++ token)
    setLocation "/"

/-- Lines 68-69: the two decoding statements of the register handler. -/
def decodeRegisterOptions (options : JSVal) : Except Err JSVal :=
  match options.prop "publicKey" with
  | .error e => .error e
  | .ok publicKey =>
      match decodeProp publicKey "challenge" with
      | .error e => .error e
      | .ok publicKey1 =>
          match publicKey1.prop "user" with
          | .error e => .error e
          | .ok user =>
              match decodeProp user "id" with
              | .error e => .error e
              | .ok user1 =>
                  .ok (options.assign "publicKey" (publicKey1.assign "user" user1))

/-- Lines 75-83: the body of the `/finish-register` request. -/
def finishRegisterBody (id : JSVal) (credential : Attestation) : String :=
  JSON.stringify (.arr [id, .obj [
    ("id", .str credential.id),
    ("rawId", .str (Base64.fromUint8Array (newUint8Array (some credential.rawId)))),
    ("response", .obj [
      ("attestationObject",
        .str (Base64.fromUint8Array (newUint8Array (some credential.attestationObject)))),
      ("clientDataJSON",
        .str (Base64.fromUint8Array (newUint8Array (some credential.clientDataJSON))))]),
    ("type", .str credential.type)]])

/-- Lines 53-90: the click handler of the `#register` button. -/
def register_click (w : World) : Run Unit :=
  if w.name_value 0 = "" then pure ()
  else do
    let response ← fetch w (post "/start-register"
      (JSON.stringify (.obj [("name", .str (w.name_value 0))])))
    let value ← response.json w.numberOf
    let (options, id) ← Run.lift (destructure2 value)
    let options ← Run.lift (decodeRegisterOptions options)
    let credential ← navigator.credentials.create w options
    let credential ← Run.lift (match credential with
      | some c => .ok c
      | none => .error .typeError)
    let _ ← fetch w (post "/finish-register" (finishRegisterBody id credential))
    authenticate w 1

/-- Lines 49-51: the click handler of the `#login` button. -/
def signin_click (w : World) : Run Unit := authenticate w 0

/-- Lines 11-22 (58-69) once the start response is there: the body parsed,
destructured into `[options, id]`, and the binary fields of `options`
decoded by `decode`. -/
def prepare (numberOf : String → Number) (decode : JSVal → Except Err JSVal) (body : String) :
    Except Err (JSVal × JSVal) :=
  match JSON.parse numberOf body with
  | none => .error .syntaxError
  | some value =>
      match destructure2 value with
      | .error e => .error e
      | .ok (options, id) =>
          match decode options with
          | .error e => .error e
          | .ok decoded => .ok (decoded, id)

/-- The `/start-login` request of `authenticate` started in stretch `t`. -/
def startLogin (w : World) (t : Nat) : Request :=
  post "/start-login" (JSON.stringify (.obj [("name", .str (w.name_value t))]))

/-- The `/start-register` request of the register handler. -/
def startRegister (w : World) : Request :=
  post "/start-register" (JSON.stringify (.obj [("name", .str (w.name_value 0))]))

/-! ## What the spec asks of the two ceremonies -/

/-- An allowed-credential entry with its `id` replaced by the decoding of
the text it held, every other property unchanged. -/
def DecodedItem (item decoded : JSVal) : Prop :=
  ∃ kvs s b, item = .obj kvs ∧ JSON.own "id" kvs = some (.str s) ∧
    Base64.toUint8Array s = some b ∧
    decoded = .obj (JSON.replaceValue "id" (.u8a b) kvs)

/-- The server-issued login options with `publicKey.challenge` replaced by
its decoding and the `id` of every entry of `publicKey.allowCredentials`
replaced by its decoding, every other property unchanged. -/
def LoginDecoded (options decoded : JSVal) : Prop :=
  ∃ okvs pkvs c cb items items1,
    options = .obj okvs ∧ JSON.own "publicKey" okvs = some (.obj pkvs) ∧
    JSON.own "challenge" pkvs = some (.str c) ∧ Base64.toUint8Array c = some cb ∧
    JSON.own "allowCredentials" pkvs = some (.arr items) ∧
    List.Forall₂ DecodedItem items items1 ∧
    decoded = .obj (JSON.replaceValue "publicKey"
      (.obj (JSON.replaceValue "allowCredentials" (.arr items1)
        (JSON.replaceValue "challenge" (.u8a cb) pkvs))) okvs)

/-- The server-issued registration options with `publicKey.challenge` and
`publicKey.user.id` replaced by their decodings, every other property
unchanged. -/
def RegisterDecoded (options decoded : JSVal) : Prop :=
  ∃ okvs pkvs c cb ukvs u ub,
    options = .obj okvs ∧ JSON.own "publicKey" okvs = some (.obj pkvs) ∧
    JSON.own "challenge" pkvs = some (.str c) ∧ Base64.toUint8Array c = some cb ∧
    JSON.own "user" pkvs = some (.obj ukvs) ∧
    JSON.own "id" ukvs = some (.str u) ∧ Base64.toUint8Array u = some ub ∧
    decoded = .obj (JSON.replaceValue "publicKey"
      (.obj (JSON.replaceValue "user" (.obj (JSON.replaceValue "id" (.u8a ub) ukvs))
        (JSON.replaceValue "challenge" (.u8a cb) pkvs))) okvs)

/-! ## A concrete page environment -/

/-- Body of a `/start-login` answer: options with a challenge and one
allowed credential, and the ceremony id `c1`. -/
def startLoginAnswer : String :=
  "[\x7b\"publicKey\":\x7b\"challenge\":\"AAA\",\"allowCredentials\":[\x7b\"id\":\"AQ\",\"type\":\"public-key\"\x7d]\x7d\x7d,\"c1\"]"

/-- Body of a `/start-register` answer: options with a challenge and a user
handle, and the ceremony id `c1`. -/
def startRegisterAnswer : String :=
  "[\x7b\"publicKey\":\x7b\"challenge\":\"AAA\",\"user\":\x7b\"id\":\"AQ\",\"name\":\"alice\"\x7d\x7d\x7d,\"c1\"]"

/-- An assertion as an authenticator returns it, without user handle. -/
def sampleAssertion : Assertion :=
  { id := "cred1", rawId := [1], authenticatorData := [2], clientDataJSON := [3],
    signature := [251, 255], userHandle := none, type := "public-key" }

/-- An attestation as an authenticator returns it. -/
def sampleAttestation : Attestation :=
  { id := "cred1", rawId := [1], attestationObject := [2], clientDataJSON := [3],
    type := "public-key" }

/-- The reading of number literals in the pages below. Their answers hold no
number literal with a fraction, with an exponent or above `2^53 + 1`, so it
is never consulted; it stands for the platform's and keeps the text. -/
def sampleNumberOf (text : String) : Number := .other text

/-- A page whose input holds `name0` when the handler starts and `name1`
once a registration has been acknowledged, with a server that answers the
two start requests with `startLoginAnswer` and `startRegisterAnswer` and the
two finish requests as given, and an authenticator that settles as given. -/
def sampleWorld (name0 name1 : String) (finishLogin finishRegister : FetchResult)
    (get : Settled Assertion) (create : Settled Attestation) : World :=
  { numberOf := sampleNumberOf
    name_value := fun n => if n = 0 then name0 else name1
    fetch := fun r =>
      if r.url = "/start-login" then .response 200 startLoginAnswer
      else if r.url = "/start-register" then .response 200 startRegisterAnswer
      else if r.url = "/finish-login" then finishLogin
      else finishRegister
    credentialsGet := fun _ => get
    credentialsCreate := fun _ => create }

/-- The options `navigator.credentials.get` receives in `sampleWorld`. -/
def sampleLoginOptions : JSVal :=
  .obj [("publicKey", .obj [("challenge", .u8a [0, 0]),
    ("allowCredentials", .arr [.obj [("id", .u8a [1]), ("type", .str "public-key")]])])]

/-- The options `navigator.credentials.create` receives in `sampleWorld`. -/
def sampleRegisterOptions : JSVal :=
  .obj [("publicKey", .obj [("challenge", .u8a [0, 0]),
    ("user", .obj [("id", .u8a [1]), ("name", .str "alice")])])]

/-- The `/finish-login` request sent in `sampleWorld`. -/
def sampleFinishLogin : Request :=
  post "/finish-login"
    "[\"c1\",\x7b\"id\":\"cred1\",\"rawId\":\"AQ\",\"response\":\x7b\"authenticatorData\":\"Ag\",\"clientDataJSON\":\"Aw\",\"signature\":\"-_8\",\"userHandle\":\"\"\x7d,\"type\":\"public-key\"\x7d]"

/-- The `/finish-register` request sent in `sampleWorld`. -/
def sampleFinishRegister : Request :=
  post "/finish-register"
    "[\"c1\",\x7b\"id\":\"cred1\",\"rawId\":\"AQ\",\"response\":\x7b\"attestationObject\":\"Ag\",\"clientDataJSON\":\"Aw\"\x7d,\"type\":\"public-key\"\x7d]"

/-- A page without network: every request fails. -/
def offlineWorld (name : String) : World :=
  { numberOf := sampleNumberOf
    name_value := fun _ => name
    fetch := fun _ => .networkError
    credentialsGet := fun _ => .rejected
    credentialsCreate := fun _ => .rejected }

/-- A page whose server issues a ceremony id with a quote, a backslash and a
line feed in it (`c"1\` followed by a line feed), for both ceremonies. -/
def quotedIdWorld : World :=
  { numberOf := sampleNumberOf
    name_value := fun _ => "alice"
    fetch := fun r =>
      if r.url = "/start-login" then
        .response 200 "[\x7b\"publicKey\":\x7b\"challenge\":\"AAA\",\"allowCredentials\":[]\x7d\x7d,\"c\\\"1\\\\\\n\"]"
      else if r.url = "/start-register" then
        .response 200 "[\x7b\"publicKey\":\x7b\"challenge\":\"AAA\",\"user\":\x7b\"id\":\"AQ\"\x7d\x7d\x7d,\"c\\\"1\\\\\\n\"]"
      else .networkError
    credentialsGet := fun _ => .resolved (some sampleAssertion)
    credentialsCreate := fun _ => .resolved (some sampleAttestation) }

/-- The `/finish-login` request sent in `quotedIdWorld`. -/
def quotedFinishLogin : Request :=
  post "/finish-login"
    "[\"c\\\"1\\\\\\n\",\x7b\"id\":\"cred1\",\"rawId\":\"AQ\",\"response\":\x7b\"authenticatorData\":\"Ag\",\"clientDataJSON\":\"Aw\",\"signature\":\"-_8\",\"userHandle\":\"\"\x7d,\"type\":\"public-key\"\x7d]"

/-- The `/finish-register` request sent in `quotedIdWorld`. -/
def quotedFinishRegister : Request :=
  post "/finish-register"
    "[\"c\\\"1\\\\\\n\",\x7b\"id\":\"cred1\",\"rawId\":\"AQ\",\"response\":\x7b\"attestationObject\":\"Ag\",\"clientDataJSON\":\"Aw\"\x7d,\"type\":\"public-key\"\x7d]"

/-- A page whose server issues the number `9007199254740993` (`2^53 + 1`) as
ceremony id and whose `/finish-login` request fails. -/
def bigIdWorld : World :=
  { numberOf := sampleNumberOf
    name_value := fun _ => "alice"
    fetch := fun r =>
      if r.url = "/start-login" then
        .response 200 "[\x7b\"publicKey\":\x7b\"challenge\":\"AAA\",\"allowCredentials\":[]\x7d\x7d,9007199254740993]"
      else .networkError
    credentialsGet := fun _ => .resolved (some sampleAssertion)
    credentialsCreate := fun _ => .rejected }

/-- The `/finish-login` request sent in `bigIdWorld`. -/
def bigIdFinishLogin : Request :=
  post "/finish-login"
    "[9007199254740992,\x7b\"id\":\"cred1\",\"rawId\":\"AQ\",\"response\":\x7b\"authenticatorData\":\"Ag\",\"clientDataJSON\":\"Aw\",\"signature\":\"-_8\",\"userHandle\":\"\"\x7d,\"type\":\"public-key\"\x7d]"

/-! ## Proofs -/

namespace Base64

theorem b64tab_b64chr (n : Nat) (h : n < 64) : b64tab (b64chr n) = some n := by
  interval_cases n <;> decide

theorem lookupAll_b64chr (ss : List Nat) (h : ∀ s ∈ ss, s < 64) :
    lookupAll (ss.map b64chr) = some ss := by
  induction ss with
  | nil => rfl
  | cons s ss ih =>
      have hs : s < 64 := h s (List.mem_cons_self _ _)
      have ht : ∀ x ∈ ss, x < 64 := fun x hx => h x (List.mem_cons_of_mem _ hx)
      simp [lookupAll, b64tab_b64chr s hs, ih ht]

theorem sextets_lt : ∀ (bs : List Byte), ∀ s ∈ sextets bs, s < 64
  | [] => by simp [sextets]
  | [a] => by
      have := a.isLt
      simp only [sextets, List.mem_cons, List.mem_singleton, List.not_mem_nil, or_false]
      rintro s (rfl | rfl) <;> omega
  | [a, b] => by
      have := a.isLt
      have := b.isLt
      simp only [sextets, List.mem_cons, List.mem_singleton, List.not_mem_nil, or_false]
      rintro s (rfl | rfl | rfl) <;> omega
  | a :: b :: c :: rest => by
      have := a.isLt
      have := b.isLt
      have := c.isLt
      have ih := sextets_lt rest
      simp only [sextets, List.mem_cons]
      rintro s (rfl | rfl | rfl | rfl | hs)
      · omega
      · omega
      · omega
      · omega
      · exact ih s hs

theorem unsextets_sextets : ∀ (bs : List Byte), unsextets (sextets bs) = some bs
  | [] => rfl
  | [a] => by
      simp only [sextets, unsextets]
      congr 2
      apply Fin.ext
      have := a.isLt
      simp only [Fin.ofNat, Fin.val_mk]
      omega
  | [a, b] => by
      simp only [sextets, unsextets]
      have ha := a.isLt
      have hb := b.isLt
      congr 2
      · apply Fin.ext
        simp only [Fin.ofNat, Fin.val_mk]
        omega
      · congr 1
        apply Fin.ext
        simp only [Fin.ofNat, Fin.val_mk]
        omega
  | a :: b :: c :: rest => by
      have ih := unsextets_sextets rest
      simp only [sextets, unsextets, ih]
      have ha := a.isLt
      have hb := b.isLt
      have hc := c.isLt
      congr 2
      · apply Fin.ext
        simp only [Fin.ofNat, Fin.val_mk]
        omega
      · congr 1
        · apply Fin.ext
          simp only [Fin.ofNat, Fin.val_mk]
          omega
        · congr 1
          apply Fin.ext
          simp only [Fin.ofNat, Fin.val_mk]
          omega

theorem b64chr_ne_pad (n : Nat) : b64chr n ≠ '=' := by
  by_cases h : n < 64
  · interval_cases n <;> decide
  · have : b64chs.length ≤ n := by
      have : b64chs.length = 64 := by decide
      omega
    simp [b64chr, List.getD, List.getElem?_eq_none this]

end Base64

namespace JSON

/-! ### Decimal digits -/

theorem toNat_ofNat_digit (d : Nat) (h : d < 10) : (Char.ofNat (48 + d)).toNat = 48 + d := by
  interval_cases d <;> rfl

theorem isDigit_ofNat_digit (d : Nat) (h : d < 10) : isDigit (Char.ofNat (48 + d)) = true := by
  interval_cases d <;> rfl

theorem digitsAux_append : ∀ (fuel n : Nat) (acc tail : List Char),
    digitsAux fuel n (acc ++ tail) = digitsAux fuel n acc ++ tail
  | 0, _, _, _ => rfl
  | fuel + 1, n, acc, tail => by
      simp only [digitsAux]
      split
      · rfl
      · exact digitsAux_append fuel (n / 10) (_ :: acc) tail

theorem digitsAux_fuel : ∀ (f g n : Nat) (acc : List Char), n < f → n < g →
    digitsAux f n acc = digitsAux g n acc
  | 0, _, _, _, h, _ => by omega
  | _ + 1, 0, _, _, _, h => by omega
  | f + 1, g + 1, n, acc, hf, hg => by
      simp only [digitsAux]
      split
      · rfl
      · exact digitsAux_fuel f g (n / 10) _ (by omega) (by omega)

theorem decimal_small (n : Nat) (h : n < 10) : decimal n = [Char.ofNat (48 + n)] := by
  simp [decimal, digitsAux, h]

theorem decimal_step (n : Nat) (h : 10 ≤ n) :
    decimal n = decimal (n / 10) ++ [Char.ofNat (48 + n % 10)] := by
  have h1 : ¬ n < 10 := by omega
  have h2 : digitsAux n (n / 10) [Char.ofNat (48 + n % 10)]
      = digitsAux n (n / 10) [] ++ [Char.ofNat (48 + n % 10)] := by
    simpa using digitsAux_append n (n / 10) [] [Char.ofNat (48 + n % 10)]
  have e : decimal n = digitsAux n (n / 10) [Char.ofNat (48 + n % 10)] := by
    simp only [decimal, digitsAux, h1, if_false]
  rw [e, h2, digitsAux_fuel n (n / 10 + 1) (n / 10) [] (by omega) (by omega)]
  rfl

theorem decimal_digits (n : Nat) : ∀ c ∈ decimal n, isDigit c = true := by
  induction n using Nat.strong_induction_on with
  | _ n ih =>
    by_cases h : n < 10
    · rw [decimal_small n h]
      intro c hc
      simp only [List.mem_singleton] at hc
      subst hc
      exact isDigit_ofNat_digit n h
    · rw [decimal_step n (by omega)]
      intro c hc
      rcases List.mem_append.1 hc with hc | hc
      · exact ih (n / 10) (by omega) c hc
      · simp only [List.mem_singleton] at hc
        subst hc
        exact isDigit_ofNat_digit (n % 10) (by omega)

theorem digitsValue_decimal (n : Nat) : digitsValue 0 (decimal n) = n := by
  induction n using Nat.strong_induction_on with
  | _ n ih =>
    by_cases h : n < 10
    · rw [decimal_small n h]
      simp [digitsValue, toNat_ofNat_digit n h]
    · rw [decimal_step n (by omega)]
      have := ih (n / 10) (by omega)
      simp only [digitsValue] at this
      simp only [digitsValue, List.foldl_append, List.foldl_cons, List.foldl_nil, this,
        toNat_ofNat_digit (n % 10) (by omega)]
      omega

theorem decimal_length (n : Nat) : 1 ≤ (decimal n).length := by
  by_cases h : n < 10
  · rw [decimal_small n h]; simp
  · rw [decimal_step n (by omega)]; simp

theorem decimal_head (n : Nat) :
    ∃ c cs, decimal n = c :: cs ∧ isDigit c = true ∧ (c = '0' → n = 0) := by
  induction n using Nat.strong_induction_on with
  | _ n ih =>
    by_cases h : n < 10
    · refine ⟨Char.ofNat (48 + n), [], decimal_small n h, isDigit_ofNat_digit n h, ?_⟩
      intro hc
      have h1 := toNat_ofNat_digit n h
      rw [hc] at h1
      have h2 : ('0' : Char).toNat = 48 := rfl
      omega
    · obtain ⟨c, cs, hc, hd, hz⟩ := ih (n / 10) (by omega)
      refine ⟨c, cs ++ [Char.ofNat (48 + n % 10)], ?_, hd, ?_⟩
      · rw [decimal_step n (by omega), hc]; rfl
      · intro h0
        have := hz h0
        omega

theorem parseDigits_append (ds : List Char) (h : ∀ c ∈ ds, isDigit c = true) :
    ∀ (rest : List Char) (acc : Nat),
      parseDigits (ds ++ rest) acc = parseDigits rest (digitsValue acc ds) := by
  induction ds with
  | nil => intro rest acc; rfl
  | cons d ds ih =>
      intro rest acc
      have hd : isDigit d = true := h d (List.mem_cons_self _ _)
      have ht : ∀ c ∈ ds, isDigit c = true := fun c hc => h c (List.mem_cons_of_mem _ hc)
      simp only [List.cons_append, parseDigits, hd, if_true, List.append_eq]
      rw [ih ht]
      rfl

theorem parseDigits_tail (rest : List Char) (h : tailOk rest = true) (acc : Nat) :
    parseDigits rest acc = (acc, rest) := by
  cases rest with
  | nil => rfl
  | cons c cs =>
      have hc : isDigit c = false := by
        simp only [tailOk, Bool.or_eq_true, decide_eq_true_eq] at h
        rcases h with (h | h) | h <;> subst h <;> rfl
      simp [parseDigits, hc]

theorem skipFraction_tail (rest : List Char) (h : tailOk rest = true) :
    skipFraction rest = some (false, rest) := by
  cases rest with
  | nil => rfl
  | cons c cs =>
      simp only [tailOk, Bool.or_eq_true, decide_eq_true_eq] at h
      rcases h with (h | h) | h <;> subst h <;> rfl

theorem skipExponent_tail (rest : List Char) (h : tailOk rest = true) :
    skipExponent rest = some (false, rest) := by
  cases rest with
  | nil => rfl
  | cons c cs =>
      simp only [tailOk, Bool.or_eq_true, decide_eq_true_eq] at h
      rcases h with (h | h) | h <;> subst h <;> rfl

theorem parseNat_decimal (n : Nat) (rest : List Char) (h : tailOk rest = true) :
    parseNat (decimal n ++ rest) = some (n, rest) := by
  obtain ⟨c, cs, hc, hd, hz⟩ := decimal_head n
  by_cases h0 : c = '0'
  · have hn : n = 0 := hz h0
    subst hn
    have : decimal 0 = ['0'] := rfl
    rw [this]
    cases rest with
    | nil => rfl
    | cons d ds =>
        have hdd : isDigit d = false := by
          simp only [tailOk, Bool.or_eq_true, decide_eq_true_eq] at h
          rcases h with (h | h) | h <;> subst h <;> rfl
        simp [parseNat, hdd]
  · have h1 : parseNat (decimal n ++ rest) = some (parseDigits (decimal n ++ rest) 0) := by
      rw [hc]
      simp [parseNat, h0, hd]
    rw [h1, parseDigits_append _ (decimal_digits n), digitsValue_decimal, parseDigits_tail _ h]

theorem decimal_head_ne (n : Nat) (x : Char) (hx : isDigit x = false) :
    ∃ c cs, decimal n = c :: cs ∧ c ≠ x := by
  obtain ⟨c, cs, hc, hd, _⟩ := decimal_head n
  refine ⟨c, cs, hc, ?_⟩
  intro h
  rw [h, hx] at hd
  exact Bool.noConfusion hd

theorem parseNumber_ser (nf : String → Number) (n : Int) (hn : n.natAbs ≤ maxSafeInteger)
    (rest : List Char) (h : tailOk rest = true) :
    parseNumber nf (ser (.num (.int n)) ++ rest) = some (.int n, rest) := by
  cases n with
  | ofNat m =>
      obtain ⟨c, cs, hc, hne⟩ := decimal_head_ne m '-' rfl
      have h1 := parseNat_decimal m rest h
      have hm : m ≤ maxSafeInteger := by simpa using hn
      have hbig : ¬ twoTo53 + 1 < m := by
        simp only [maxSafeInteger] at hm
        simp only [twoTo53]
        omega
      have hmin : min m twoTo53 = m := by
        simp only [maxSafeInteger] at hm
        simp only [twoTo53]
        omega
      simp only [ser]
      rw [hc] at h1 ⊢
      simp only [List.cons_append] at h1 ⊢
      simp only [parseNumber, if_neg hne, h1, skipFraction_tail rest h, skipExponent_tail rest h,
        Bool.false_eq_true, false_or, if_neg hbig, hmin]
  | negSucc m =>
      have h1 := parseNat_decimal (m + 1) rest h
      have hm : m + 1 ≤ maxSafeInteger := by
        have : (Int.negSucc m).natAbs = m + 1 := rfl
        omega
      have hbig : ¬ twoTo53 + 1 < m + 1 := by
        simp only [maxSafeInteger] at hm
        simp only [twoTo53]
        omega
      have hmin : min (m + 1) twoTo53 - 1 = m := by
        simp only [maxSafeInteger] at hm
        simp only [twoTo53]
        omega
      have hz : ¬ m + 1 = 0 := by omega
      simp only [ser, List.cons_append, parseNumber, if_true, h1, skipFraction_tail rest h,
        skipExponent_tail rest h, Bool.false_eq_true, false_or, if_neg hbig, if_neg hz, hmin]

/-! ### Strings -/

theorem hexVal_hexDigit (d : Nat) (h : d < 16) : hexVal (hexDigit d) = some d := by
  interval_cases d <;> rfl

theorem hex4_escape (a b : Nat) (ha : a < 16) (hb : b < 16) (tail : List Char) :
    hex4 ('0' :: '0' :: hexDigit a :: hexDigit b :: tail) = some (a * 16 + b, tail) := by
  have e0 : hexVal '0' = some 0 := rfl
  simp only [hex4, e0, hexVal_hexDigit a ha, hexVal_hexDigit b hb]
  simp

theorem parseChars_escape (f : Nat) (c : Char) (h8 : c.toNat < 32) (tail : List Char) :
    parseChars (f + 1)
        ('\\' :: 'u' :: '0' :: '0' :: hexDigit (c.toNat / 16) :: hexDigit (c.toNat % 16) :: tail)
      = consChar c (parseChars f tail) := by
  have hx := hex4_escape (c.toNat / 16) (c.toNat % 16) (by omega) (by omega) tail
  have hval : c.toNat / 16 * 16 + c.toNat % 16 = c.toNat := by omega
  rw [hval] at hx
  have hs1 : ¬ (0xD800 ≤ c.toNat ∧ c.toNat < 0xDC00) := by omega
  have hs2 : ¬ (0xDC00 ≤ c.toNat ∧ c.toNat < 0xE000) := by omega
  have q1 : ¬ ('\\' : Char) = '\"' := by decide
  have u1 : ¬ ('u' : Char) = '\"' := by decide
  have u2 : ¬ ('u' : Char) = '\\' := by decide
  have u3 : ¬ ('u' : Char) = '/' := by decide
  have u4 : ¬ ('u' : Char) = 'b' := by decide
  have u5 : ¬ ('u' : Char) = 'f' := by decide
  have u6 : ¬ ('u' : Char) = 'n' := by decide
  have u7 : ¬ ('u' : Char) = 'r' := by decide
  have u8 : ¬ ('u' : Char) = 't' := by decide
  rw [parseChars]
  simp only [if_neg q1, if_true, if_neg u1, if_neg u2, if_neg u3, if_neg u4, if_neg u5,
    if_neg u6, if_neg u7, if_neg u8, hx, if_neg hs1, if_neg hs2, Char.ofNat_toNat]

theorem parseChars_quoteChars (s : List Char) : ∀ (fuel : Nat) (rest : List Char),
    s.length < fuel → parseChars fuel (quoteChars s ++ rest) = some (s, rest) := by
  induction s with
  | nil =>
      intro fuel rest hf
      cases fuel with
      | zero => omega
      | succ f => simp [quoteChars, parseChars]
  | cons c s ih =>
      intro fuel rest hf
      cases fuel with
      | zero => omega
      | succ f =>
        have hf1 : s.length < f := by simpa using hf
        have hrec := ih f rest hf1
        simp only [quoteChars, quoteChar]
        by_cases h1 : c = '\"'
        · subst h1
          simp [parseChars, hrec, consChar]
        by_cases h2 : c = '\\'
        · subst h2
          simp [parseChars, hrec, consChar]
        by_cases h3 : c.toNat = 8
        · have hc : c = Char.ofNat 8 := by rw [← h3, Char.ofNat_toNat]
          subst hc
          simp [parseChars, hrec, consChar]
        by_cases h4 : c.toNat = 12
        · have hc : c = Char.ofNat 12 := by rw [← h4, Char.ofNat_toNat]
          subst hc
          simp [parseChars, hrec, consChar]
        by_cases h5 : c = '\n'
        · subst h5
          simp [parseChars, hrec, consChar]
        by_cases h6 : c = '\r'
        · subst h6
          simp [parseChars, hrec, consChar]
        by_cases h7 : c = '\t'
        · subst h7
          simp [parseChars, hrec, consChar]
        by_cases h8 : c.toNat < 32
        · simp only [if_neg h1, if_neg h2, if_neg h3, if_neg h4, if_neg h5, if_neg h6, if_neg h7,
            if_pos h8, List.cons_append, List.nil_append]
          rw [parseChars_escape f c h8, hrec]
          rfl
        · simp only [if_neg h1, if_neg h2, if_neg h3, if_neg h4, if_neg h5, if_neg h6, if_neg h7, if_neg h8]
          simp [parseChars, h1, h2, h8, hrec, consChar]

theorem quoteChars_length (s : List Char) : s.length + 1 ≤ (quoteChars s).length := by
  induction s with
  | nil => simp [quoteChars]
  | cons c s ih =>
      have : 1 ≤ (quoteChar c).length := by
        simp only [quoteChar]
        split_ifs <;> simp
      simp only [quoteChars, List.length_append, List.length_cons]
      omega

theorem parseString_quote (s : String) (rest : List Char) :
    parseString (quote s ++ rest) = some (s, rest) := by
  have hlen : s.toList.length < (quoteChars s.toList ++ rest).length + 1 := by
    have := quoteChars_length s.toList
    simp only [List.length_append]
    omega
  have h := parseChars_quoteChars s.toList _ rest hlen
  simp only [quote, List.cons_append, parseString, if_true, h]
  rfl

end JSON

namespace JSON

/-! ### Objects in enumeration order -/

theorem memberKeys_eq_map (kvs : List (String × JSVal)) : memberKeys kvs = kvs.map Prod.fst := by
  induction kvs with
  | nil => rfl
  | cons p kvs ih => cases p; simp [memberKeys, ih]

theorem keysOrdered_left : ∀ (xs ys : List String), keysOrdered (xs ++ ys) = true →
    keysOrdered xs = true
  | [], _, _ => rfl
  | [_], _, _ => rfl
  | a :: b :: xs, ys, h => by
      simp only [List.cons_append, keysOrdered, Bool.and_eq_true] at h ⊢
      exact ⟨h.1, keysOrdered_left (b :: xs) ys h.2⟩

theorem keysOrdered_index : ∀ (ks : List String) (k : String) (n : Nat),
    keysOrdered (ks ++ [k]) = true → arrayIndex k = some n →
    ∀ k1 ∈ ks, ∃ m, arrayIndex k1 = some m ∧ m < n
  | [], _, _, _, _ => by simp
  | [a], k, n, h, hk => by
      intro k1 hk1
      simp only [List.mem_singleton] at hk1
      subst hk1
      simp only [List.cons_append, List.nil_append, keysOrdered, Bool.and_true, keyBefore, hk] at h
      cases ha : arrayIndex k1 with
      | none => simp [ha] at h
      | some m => exact ⟨m, rfl, by simpa [ha] using h⟩
  | a :: b :: ks, k, n, h, hk => by
      simp only [List.cons_append, keysOrdered, Bool.and_eq_true] at h
      have ih := keysOrdered_index (b :: ks) k n (by simpa using h.2) hk
      obtain ⟨mb, hb, hbn⟩ := ih b (List.mem_cons_self _ _)
      intro k1 hk1
      rcases List.mem_cons.1 hk1 with rfl | hk1
      · have hab := h.1
        simp only [keyBefore, hb] at hab
        cases ha : arrayIndex k1 with
        | none => simp [ha] at hab
        | some m =>
            refine ⟨m, rfl, ?_⟩
            have : m < mb := by simpa [ha] using hab
            omega
      · exact ih k1 hk1

theorem insertIndex_last (k : String) (n : Nat) (v : JSVal) :
    ∀ (kvs : List (String × JSVal)),
      (∀ k1 ∈ memberKeys kvs, ∃ m, arrayIndex k1 = some m ∧ m < n) →
      insertIndex k n v kvs = kvs ++ [(k, v)]
  | [], _ => rfl
  | (k1, v1) :: kvs, h => by
      obtain ⟨m, hm, hmn⟩ := h k1 (by simp [memberKeys])
      have ih := insertIndex_last k n v kvs
        (fun k2 hk2 => h k2 (by simp [memberKeys, hk2]))
      simp [insertIndex, hm, hmn, ih]

theorem any_key_false (k : String) (kvs : List (String × JSVal)) (h : k ∉ memberKeys kvs) :
    kvs.any (fun p => decide (p.1 = k)) = false := by
  rw [memberKeys_eq_map] at h
  simp only [List.any_eq_false, decide_eq_true_eq]
  intro p hp hpk
  exact h (List.mem_map.2 ⟨p, hp, hpk⟩)

theorem createDataProperty_last (acc : List (String × JSVal)) (k : String) (v : JSVal)
    (h : keysNormal (memberKeys (acc ++ [(k, v)])) = true) :
    createDataProperty acc k v = acc ++ [(k, v)] := by
  simp only [keysNormal, Bool.and_eq_true, decide_eq_true_eq, memberKeys_eq_map, List.map_append,
    List.map_cons, List.map_nil] at h
  obtain ⟨hnd, hord⟩ := h
  have hk : k ∉ memberKeys acc := by
    rw [memberKeys_eq_map]
    intro hmem
    have := List.nodup_append.1 hnd
    exact this.2.2 hmem (List.mem_singleton_self k)
  simp only [createDataProperty, any_key_false k acc hk]
  cases hidx : arrayIndex k with
  | none => simp
  | some n =>
      have hall := keysOrdered_index (acc.map Prod.fst) k n hord hidx
      rw [← memberKeys_eq_map] at hall
      simp [insertIndex_last k n v acc hall]

theorem keysNormal_left (xs ys : List String) (h : keysNormal (xs ++ ys) = true) :
    keysNormal xs = true := by
  simp only [keysNormal, Bool.and_eq_true, decide_eq_true_eq] at h ⊢
  exact ⟨(List.nodup_append.1 h.1).1, keysOrdered_left xs ys h.2⟩

theorem foldl_createDataProperty : ∀ (l acc : List (String × JSVal)),
    keysNormal (memberKeys (acc ++ l)) = true →
    l.foldl (fun a p => createDataProperty a p.1 p.2) acc = acc ++ l
  | [], acc, _ => by simp
  | (k, v) :: l, acc, h => by
      have h1 : keysNormal (memberKeys (acc ++ [(k, v)])) = true := by
        have e : memberKeys (acc ++ (k, v) :: l) = memberKeys (acc ++ [(k, v)]) ++ memberKeys l := by
          simp [memberKeys_eq_map]
        rw [e] at h
        exact keysNormal_left _ _ h
      have h2 : keysNormal (memberKeys ((acc ++ [(k, v)]) ++ l)) = true := by simpa using h
      simp only [List.foldl_cons, createDataProperty_last acc k v h1]
      rw [foldl_createDataProperty l (acc ++ [(k, v)]) h2]
      simp

theorem buildObject_normal (kvs : List (String × JSVal))
    (h : keysNormal (memberKeys kvs) = true) : buildObject kvs = kvs := by
  have := foldl_createDataProperty kvs [] (by simpa using h)
  simpa [buildObject] using this

end JSON

namespace JSON

theorem any_of_own (k : String) (x : JSVal) : ∀ (kvs : List (String × JSVal)),
    own k kvs = some x → kvs.any (fun p => decide (p.1 = k)) = true
  | [], h => by simp [own] at h
  | (k1, v1) :: kvs, h => by
      by_cases hk : k1 = k
      · simp [hk]
      · have := any_of_own k x kvs (by simpa [own, hk] using h)
        simp [hk, this]

theorem createDataProperty_of_own (k : String) (x v : JSVal) (kvs : List (String × JSVal))
    (h : own k kvs = some x) : createDataProperty kvs k v = replaceValue k v kvs := by
  simp [createDataProperty, any_of_own k x kvs h]

theorem own_replaceValue_ne (k k1 : String) (v : JSVal) (hne : k1 ≠ k) :
    ∀ (kvs : List (String × JSVal)), own k1 (replaceValue k v kvs) = own k1 kvs
  | [] => rfl
  | (k2, v2) :: kvs => by
      by_cases hk : k2 = k
      · subst hk
        simp [replaceValue, own, Ne.symm hne]
      · simp [replaceValue, own, hk, own_replaceValue_ne k k1 v hne kvs]

theorem own_replaceValue_same (k : String) (x v : JSVal) :
    ∀ (kvs : List (String × JSVal)), own k kvs = some x → own k (replaceValue k v kvs) = some v
  | [], h => by simp [own] at h
  | (k2, v2) :: kvs, h => by
      by_cases hk : k2 = k
      · simp [replaceValue, own, hk]
      · simp only [own, hk, if_false] at h
        simp [replaceValue, own, hk, own_replaceValue_same k x v kvs h]

theorem memberKeys_replaceValue (k : String) (v : JSVal) :
    ∀ (kvs : List (String × JSVal)), memberKeys (replaceValue k v kvs) = memberKeys kvs
  | [] => rfl
  | (k2, v2) :: kvs => by
      by_cases hk : k2 = k
      · simp [replaceValue, memberKeys, hk]
      · simp [replaceValue, memberKeys, hk, memberKeys_replaceValue k v kvs]

end JSON

namespace JSON

/-! ### Values -/

theorem isDigit_startsValue (c : Char) (h : isDigit c = true) :
    startsValue c = true ∧ c ≠ '[' ∧ c ≠ '{' ∧ c ≠ '\"' ∧ c ≠ 'n' ∧ c ≠ 't' ∧ c ≠ 'f' := by
  simp only [isDigit, Bool.and_eq_true, decide_eq_true_eq] at h
  have ne : ∀ x : Char, (x.toNat < 48 ∨ 57 < x.toNat) → c ≠ x := by
    intro x hx hcx
    rw [hcx] at h
    omega
  have w1 := ne ' ' (by decide)
  have w2 := ne '\t' (by decide)
  have w3 := ne '\n' (by decide)
  have w4 := ne '\r' (by decide)
  have w5 := ne ']' (by decide)
  have w6 := ne '}' (by decide)
  have w7 := ne ',' (by decide)
  refine ⟨?_, ne _ (by decide), ne _ (by decide), ne _ (by decide), ne _ (by decide),
    ne _ (by decide), ne _ (by decide)⟩
  simp [startsValue, isWs, w1, w2, w3, w4, w5, w6, w7]

theorem skipWs_cons (c : Char) (cs : List Char) (h : isWs c = false) :
    skipWs (c :: cs) = c :: cs := by
  simp [skipWs, h]

theorem startsValue_isWs (c : Char) (h : startsValue c = true) : isWs c = false := by
  simp only [startsValue, Bool.and_eq_true, Bool.not_eq_true'] at h
  exact h.1.1.1

theorem quote_eq (s : String) : quote s = '\"' :: quoteChars s.toList := rfl

theorem parseValue_number (nf : String → Number) (fuel : Nat) (c : Char) (cs : List Char) (hd : isDigit c = true ∨ c = '-') :
    parseValue nf (fuel + 1) (c :: cs) =
      match parseNumber nf (c :: cs) with
      | none => none
      | some (x, rest1) => some (.num x, rest1) := by
  have hc : startsValue c = true ∧ c ≠ '[' ∧ c ≠ '{' ∧ c ≠ '\"' ∧ c ≠ 'n' ∧ c ≠ 't' ∧ c ≠ 'f' := by
    rcases hd with hd | hd
    · exact isDigit_startsValue c hd
    · subst hd; decide
  obtain ⟨h0, h1, h2, h3, h4, h5, h6⟩ := hc
  rw [parseValue, skipWs_cons c cs (startsValue_isWs c h0)]
  simp only [if_neg h1, if_neg h2, if_neg h3, if_neg h4, if_neg h5, if_neg h6]

theorem isJson_num (x : Number) (h : isJson (.num x) = true) :
    ∃ n, x = .int n ∧ n.natAbs ≤ maxSafeInteger := by
  cases x with
  | int n => exact ⟨n, rfl, by simpa [isJson] using h⟩
  | negZero => simp [isJson] at h
  | infinity b => simp [isJson] at h
  | other t => simp [isJson] at h

theorem ser_num_head (n : Int) :
    ∃ c cs, ser (.num (.int n)) = c :: cs ∧ (isDigit c = true ∨ c = '-') := by
  cases n with
  | ofNat m =>
      obtain ⟨c, cs, hc, hd, _⟩ := decimal_head m
      exact ⟨c, cs, by simpa [ser] using hc, Or.inl hd⟩
  | negSucc m => exact ⟨'-', decimal (m + 1), rfl, Or.inr rfl⟩

theorem serElems_tailOk (vs : List JSVal) (rest : List Char) :
    tailOk (serElems false vs ++ rest) = true := by
  cases vs <;> simp [serElems, tailOk]

theorem serMembers_tailOk (kvs : List (String × JSVal)) (h : allJsonMembers kvs = true)
    (rest : List Char) : tailOk (serMembers false kvs ++ rest) = true := by
  cases kvs with
  | nil => simp [serMembers, tailOk]
  | cons p kvs =>
      obtain ⟨k, v⟩ := p
      have hv : isJson v = true := by
        simp only [allJsonMembers, Bool.and_eq_true] at h
        exact h.1
      cases v <;> first
        | (simp [serMembers, tailOk]; done)
        | simp [isJson] at hv

theorem ser_head (v : JSVal) (h : isJson v = true) :
    ∃ c cs, ser v = c :: cs ∧ startsValue c = true := by
  cases v with
  | undefined => simp [isJson] at h
  | null => exact ⟨'n', _, rfl, by decide⟩
  | bool b => cases b <;> exact ⟨_, _, rfl, by decide⟩
  | num x =>
      obtain ⟨n, rfl, _⟩ := isJson_num x h
      obtain ⟨c, cs, hc, hd⟩ := ser_num_head n
      refine ⟨c, cs, hc, ?_⟩
      rcases hd with hd | hd
      · exact (isDigit_startsValue c hd).1
      · subst hd; decide
  | str s => exact ⟨'\"', _, rfl, by decide⟩
  | u8a b => simp [isJson] at h
  | arr xs => exact ⟨'[', _, rfl, by decide⟩
  | obj kvs => exact ⟨'{', _, rfl, by decide⟩

theorem startsValue_ne (c : Char) (h : startsValue c = true) :
    isWs c = false ∧ c ≠ ']' ∧ c ≠ '}' ∧ c ≠ ',' := by
  simp only [startsValue, Bool.and_eq_true, Bool.not_eq_true', bne_iff_ne, ne_eq] at h
  exact ⟨h.1.1.1, h.1.1.2, h.1.2, h.2⟩

end JSON

namespace JSON

theorem serMembers_cons (first : Bool) (k : String) (v : JSVal) (kvs : List (String × JSVal))
    (h : isJson v = true) :
    serMembers first ((k, v) :: kvs) =
      (if first then [] else [',']) ++ quote k ++ ':' :: ser v ++ serMembers false kvs := by
  cases v <;> first | rfl | simp [isJson] at h

theorem parseMember_ser (nf : String → Number) (fuel : Nat) (k : String) (v : JSVal) (tail : List Char)
    (hv : parseValue nf fuel (ser v ++ tail) = some (v, tail)) :
    parseMember nf (fuel + 1) (quote k ++ ':' :: ser v ++ tail) = some ((k, v), tail) := by
  have hq : skipWs (quote k ++ ':' :: ser v ++ tail) = quote k ++ (':' :: (ser v ++ tail)) := by
    simp [quote_eq, skipWs, isWs]
  have hc : skipWs (':' :: (ser v ++ tail)) = ':' :: (ser v ++ tail) := by
    simp [skipWs, isWs]
  rw [parseMember, hq, parseString_quote]
  simp only [hc, if_true, hv]

mutual
theorem parseValue_ser (nf : String → Number) : ∀ (v : JSVal), isJson v = true → ∀ (fuel : Nat) (rest : List Char),
    size v ≤ fuel → tailOk rest = true → parseValue nf fuel (ser v ++ rest) = some (v, rest)
  | .undefined, h, _, _, _, _ => by simp [isJson] at h
  | .u8a _, h, _, _, _, _ => by simp [isJson] at h
  | .null, _, 0, _, hf, _ => by simp [size] at hf
  | .null, _, fuel + 1, rest, _, _ => by
      simp [ser, parseValue, skipWs, isWs, expect]
  | .bool b, _, 0, _, hf, _ => by simp [size] at hf
  | .bool true, _, fuel + 1, rest, _, _ => by
      simp [ser, parseValue, skipWs, isWs, expect]
  | .bool false, _, fuel + 1, rest, _, _ => by
      simp [ser, parseValue, skipWs, isWs, expect]
  | .str s, _, 0, _, hf, _ => by simp [size] at hf
  | .str s, _, fuel + 1, rest, _, _ => by
      have hp := parseString_quote s rest
      simp only [ser]
      rw [quote_eq] at hp ⊢
      simp only [List.cons_append] at hp ⊢
      have b1 : ¬ ('\"' : Char) = '[' := by decide
      have b2 : ¬ ('\"' : Char) = '{' := by decide
      rw [parseValue, skipWs_cons _ _ (by decide)]
      simp only [if_neg b1, if_neg b2, if_true, hp]
  | .num x, _, 0, _, hf, _ => by simp [size] at hf
  | .num x, h, fuel + 1, rest, _, ht => by
      obtain ⟨n, rfl, hn⟩ := isJson_num x h
      obtain ⟨c, cs, hc, hd⟩ := ser_num_head n
      have hp := parseNumber_ser nf n hn rest ht
      rw [hc] at hp ⊢
      simp only [List.cons_append] at hp ⊢
      rw [parseValue_number nf fuel c _ hd, hp]
  | .arr xs, _, 0, _, hf, _ => by cases xs <;> simp [size, sizeElems] at hf
  | .arr [], _, fuel + 1, rest, _, _ => by
      simp [ser, serElems, parseValue, skipWs, isWs]
  | .arr (v :: vs), h, fuel + 1, rest, hf, ht => by
      have hj : isJson v = true ∧ allJson vs = true := by
        simpa [isJson, allJson] using h
      have hs : size v ≤ fuel ∧ sizeElems vs ≤ fuel := by
        simp only [size, sizeElems] at hf
        omega
      obtain ⟨c, cs, hc, hstart⟩ := ser_head v hj.1
      obtain ⟨hw, hb, _, _⟩ := startsValue_ne c hstart
      have hv := parseValue_ser nf v hj.1 fuel (serElems false vs ++ rest) hs.1
        (serElems_tailOk vs rest)
      have he := parseElems_ser nf vs hj.2 fuel rest hs.2 ht
      have e : ser (.arr (v :: vs)) ++ rest = '[' :: (ser v ++ (serElems false vs ++ rest)) := by
        simp [ser, serElems]
      rw [e, parseValue, skipWs_cons _ _ (by decide)]
      simp only [if_true]
      rw [hc] at hv ⊢
      simp only [List.cons_append] at hv ⊢
      rw [skipWs_cons _ _ hw]
      simp only [if_neg hb, hv, he]
  | .obj kvs, _, 0, _, hf, _ => by
      cases kvs with
      | nil => simp [size, sizeMembers] at hf
      | cons p kvs => cases p; simp [size, sizeMembers] at hf
  | .obj [], _, fuel + 1, rest, _, _ => by
      simp [ser, serMembers, parseValue, skipWs, isWs]
  | .obj ((k, v) :: kvs), h, fuel + 1, rest, hf, ht => by
      have hj : keysNormal (memberKeys ((k, v) :: kvs)) = true ∧ isJson v = true
          ∧ allJsonMembers kvs = true := by
        simpa [isJson, allJsonMembers, and_assoc] using h
      have hs : size v + 1 ≤ fuel ∧ sizeMembers kvs ≤ fuel := by
        simp only [size, sizeMembers] at hf
        omega
      cases fuel with
      | zero => omega
      | succ f =>
        have hv := parseValue_ser nf v hj.2.1 f (serMembers false kvs ++ rest) (by omega)
          (serMembers_tailOk kvs hj.2.2 rest)
        have hm := parseMember_ser nf f k v (serMembers false kvs ++ rest) hv
        have hms := parseMembers_ser nf kvs hj.2.2 (f + 1) rest hs.2 ht
        have e : ser (.obj ((k, v) :: kvs)) ++ rest
            = '{' :: '\"' :: (quoteChars k.toList ++ ':' :: ser v ++ (serMembers false kvs ++ rest)) := by
          simp [ser, serMembers_cons true k v kvs hj.2.1, quote_eq]
        have hm2 : parseMember nf (f + 1)
            ('\"' :: (quoteChars k.toList ++ ':' :: ser v ++ (serMembers false kvs ++ rest)))
            = some ((k, v), serMembers false kvs ++ rest) := by
          simpa [quote_eq] using hm
        rw [e, parseValue, skipWs_cons _ _ (by decide)]
        have b1 : ¬ ('{' : Char) = '[' := by decide
        have b2 : ¬ ('\"' : Char) = '}' := by decide
        simp only [if_neg b1, if_true]
        rw [skipWs_cons _ _ (by decide)]
        simp only [if_neg b2, hm2, hms, buildObject_normal _ hj.1]
theorem parseElems_ser (nf : String → Number) : ∀ (vs : List JSVal), allJson vs = true → ∀ (fuel : Nat) (rest : List Char),
    sizeElems vs ≤ fuel → tailOk rest = true →
    parseElems nf fuel (serElems false vs ++ rest) = some (vs, rest)
  | [], _, 0, _, hf, _ => by simp [sizeElems] at hf
  | [], _, fuel + 1, rest, _, _ => by
      simp [serElems, parseElems, skipWs, isWs]
  | v :: vs, _, 0, _, hf, _ => by simp [sizeElems] at hf
  | v :: vs, h, fuel + 1, rest, hf, ht => by
      have hj : isJson v = true ∧ allJson vs = true := by
        simpa [allJson] using h
      have hs : size v ≤ fuel ∧ sizeElems vs ≤ fuel := by
        simp only [sizeElems] at hf
        omega
      have hv := parseValue_ser nf v hj.1 fuel (serElems false vs ++ rest) hs.1
        (serElems_tailOk vs rest)
      have he := parseElems_ser nf vs hj.2 fuel rest hs.2 ht
      have e : serElems false (v :: vs) ++ rest = ',' :: (ser v ++ (serElems false vs ++ rest)) := by
        simp [serElems]
      have b1 : ¬ (',' : Char) = ']' := by decide
      rw [e, parseElems, skipWs_cons _ _ (by decide)]
      simp only [if_neg b1, if_true, hv, he]
theorem parseMembers_ser (nf : String → Number) : ∀ (kvs : List (String × JSVal)), allJsonMembers kvs = true →
    ∀ (fuel : Nat) (rest : List Char), sizeMembers kvs ≤ fuel → tailOk rest = true →
    parseMembers nf fuel (serMembers false kvs ++ rest) = some (kvs, rest)
  | [], _, 0, _, hf, _ => by simp [sizeMembers] at hf
  | [], _, fuel + 1, rest, _, _ => by
      simp [serMembers, parseMembers, skipWs, isWs]
  | (k, v) :: kvs, _, 0, _, hf, _ => by simp [sizeMembers] at hf
  | (k, v) :: kvs, h, fuel + 1, rest, hf, ht => by
      have hj : isJson v = true ∧ allJsonMembers kvs = true := by
        simpa [allJsonMembers] using h
      have hs : size v + 1 ≤ fuel ∧ sizeMembers kvs ≤ fuel := by
        simp only [sizeMembers] at hf
        omega
      cases fuel with
      | zero => omega
      | succ f =>
        have hv := parseValue_ser nf v hj.1 f (serMembers false kvs ++ rest) (by omega)
          (serMembers_tailOk kvs hj.2 rest)
        have hm := parseMember_ser nf f k v (serMembers false kvs ++ rest) hv
        have hms := parseMembers_ser nf kvs hj.2 (f + 1) rest hs.2 ht
        have e : serMembers false ((k, v) :: kvs) ++ rest
            = ',' :: (quote k ++ ':' :: ser v ++ (serMembers false kvs ++ rest)) := by
          simp [serMembers_cons false k v kvs hj.1]
        have b1 : ¬ (',' : Char) = '}' := by decide
        rw [e, parseMembers, skipWs_cons _ _ (by decide)]
        simp only [if_neg b1, if_true, hm, hms]
end

theorem quote_length (s : String) : 2 ≤ (quote s).length := by
  have := quoteChars_length s.toList
  simp only [quote, List.length_cons]
  omega

mutual
theorem size_le_length : ∀ (v : JSVal), isJson v = true → size v ≤ (ser v).length
  | .undefined, h => by simp [isJson] at h
  | .u8a _, h => by simp [isJson] at h
  | .null, _ => by simp [size, ser]
  | .bool true, _ => by simp [size, ser]
  | .bool false, _ => by simp [size, ser]
  | .str s, _ => by
      have := quote_length s
      simp only [size, ser]
      omega
  | .num (.int (.ofNat n)), _ => by
      have := decimal_length n
      simpa [size, ser] using this
  | .num (.int (.negSucc n)), _ => by simp [size, ser]
  | .num .negZero, h => by simp [isJson] at h
  | .num (.infinity _), h => by simp [isJson] at h
  | .num (.other _), h => by simp [isJson] at h
  | .arr [], _ => by simp [size, sizeElems, ser, serElems]
  | .arr (v :: vs), h => by
      have hj : isJson v = true ∧ allJson vs = true := by
        simpa [isJson, allJson] using h
      have h1 := size_le_length v hj.1
      have h2 := sizeElems_le_length vs hj.2
      simp only [size, sizeElems, ser, serElems, if_true, List.nil_append, List.length_cons,
        List.length_append]
      omega
  | .obj [], _ => by simp [size, sizeMembers, ser, serMembers]
  | .obj ((k, v) :: kvs), h => by
      have hj : keysNormal (memberKeys ((k, v) :: kvs)) = true ∧ isJson v = true
          ∧ allJsonMembers kvs = true := by
        simpa [isJson, allJsonMembers, and_assoc] using h
      have h1 := size_le_length v hj.2.1
      have h2 := sizeMembers_le_length kvs hj.2.2
      have h3 := quote_length k
      simp only [size, sizeMembers, ser, serMembers_cons true k v kvs hj.2.1, if_true,
        List.nil_append, List.length_cons, List.length_append]
      omega
theorem sizeElems_le_length : ∀ (vs : List JSVal), allJson vs = true →
    sizeElems vs ≤ (serElems false vs).length
  | [], _ => by simp [sizeElems, serElems]
  | v :: vs, h => by
      have hj : isJson v = true ∧ allJson vs = true := by
        simpa [allJson] using h
      have h1 := size_le_length v hj.1
      have h2 := sizeElems_le_length vs hj.2
      simp only [sizeElems, serElems, List.length_cons, List.length_append, Bool.false_eq_true,
        if_false, List.length_nil]
      omega
theorem sizeMembers_le_length : ∀ (kvs : List (String × JSVal)), allJsonMembers kvs = true →
    sizeMembers kvs ≤ (serMembers false kvs).length
  | [], _ => by simp [sizeMembers, serMembers]
  | (k, v) :: kvs, h => by
      have hj : isJson v = true ∧ allJsonMembers kvs = true := by
        simpa [allJsonMembers] using h
      have h1 := size_le_length v hj.1
      have h2 := sizeMembers_le_length kvs hj.2
      have h3 := quote_length k
      simp only [sizeMembers, serMembers_cons false k v kvs hj.1, List.length_cons,
        List.length_append, Bool.false_eq_true, if_false, List.length_nil]
      omega
end

/-- What `JSON.stringify` writes for a JSON value, `JSON.parse` reads back
as that value. -/
theorem parse_stringify (nf : String → Number) (v : JSVal) (h : isJson v = true) :
    parse nf (stringify v) = some v := by
  have hlen := size_le_length v h
  have hp := parseValue_ser nf v h ((ser v).length + 1) [] (by omega) rfl
  simp only [List.append_nil] at hp
  simp only [parse, stringify, String.length, String.toList, hp]
  rfl

end JSON

namespace JSON

/-! ### What the parser returns is a JSON value -/

theorem digitsValue_snoc (acc : Nat) (ds : List Char) (d : Char) :
    digitsValue acc (ds ++ [d]) = digitsValue acc ds * 10 + (d.toNat - 48) := by
  simp [digitsValue]

theorem ofNat_digit (d : Char) (h : isDigit d = true) : Char.ofNat (48 + (d.toNat - 48)) = d := by
  simp only [isDigit, Bool.and_eq_true, decide_eq_true_eq] at h
  have : 48 + (d.toNat - 48) = d.toNat := by omega
  rw [this, Char.ofNat_toNat]

theorem digit_lt (d : Char) (h : isDigit d = true) : d.toNat - 48 < 10 := by
  simp only [isDigit, Bool.and_eq_true, decide_eq_true_eq] at h
  omega

theorem decimal_zero : decimal 0 = ['0'] := rfl

/-- A run of digits without a leading zero is the decimal text of its
value. -/
theorem decimal_digitsValue (ds : List Char) :
    (∀ c ∈ ds, isDigit c = true) → ds ≠ [] → (ds.head? ≠ some '0' ∨ ds.length = 1) →
    decimal (digitsValue 0 ds) = ds := by
  induction ds using List.reverseRecOn with
  | nil => intro _ h; exact absurd rfl h
  | append_singleton init d ih =>
      intro hall _ hlead
      have hd : isDigit d = true := hall d (by simp)
      have hinit : ∀ c ∈ init, isDigit c = true := fun c hc => hall c (by simp [hc])
      rw [digitsValue_snoc]
      cases init with
      | nil =>
          have : digitsValue 0 [] = 0 := rfl
          rw [this, decimal_small _ (by have := digit_lt d hd; omega)]
          simp [ofNat_digit d hd]
      | cons c cs =>
          have hhead : (c :: cs).head? ≠ some '0' := by
            rcases hlead with h | h
            · simpa using h
            · simp at h
          have hrec := ih hinit (by simp) (Or.inl hhead)
          have hpos : 1 ≤ digitsValue 0 (c :: cs) := by
            by_contra hzero
            have hz : digitsValue 0 (c :: cs) = 0 := by omega
            rw [hz, decimal_zero] at hrec
            apply hhead
            rw [← hrec]
            rfl
          have hlt := digit_lt d hd
          rw [decimal_step _ (by omega)]
          have e1 : (digitsValue 0 (c :: cs) * 10 + (d.toNat - 48)) / 10 = digitsValue 0 (c :: cs) := by
            omega
          have e2 : (digitsValue 0 (c :: cs) * 10 + (d.toNat - 48)) % 10 = d.toNat - 48 := by
            omega
          rw [e1, e2, hrec, ofNat_digit d hd]

theorem parseDigits_all (ds : List Char) (h : ∀ c ∈ ds, isDigit c = true) :
    parseDigits ds 0 = (digitsValue 0 ds, []) := by
  have := parseDigits_append ds h [] 0
  simpa [parseDigits] using this

/-- An array index is written in one way only. -/
theorem arrayIndex_canonical (k : String) (n : Nat) (h : arrayIndex k = some n) :
    k.toList = decimal n := by
  change k.data = decimal n
  unfold arrayIndex at h
  cases hk : k.data with
  | nil => simp [String.toList, hk] at h
  | cons c cs =>
      simp only [String.toList, hk] at h
      split at h
      · rename_i hcond
        simp only [Bool.and_eq_true, List.all_eq_true, Bool.or_eq_true, bne_iff_ne, ne_eq,
          List.isEmpty_iff, decide_eq_true_eq] at hcond
        obtain ⟨⟨hall, hlead⟩, _⟩ := hcond
        rw [parseDigits_all _ hall] at h
        split at h
        · simp only [Option.some.injEq] at h
          rw [← h]
          symm
          apply decimal_digitsValue _ hall (by simp)
          rcases hlead with hl | hl
          · left; simpa using hl
          · right; simp [hl]
        · cases h
      · cases h

theorem arrayIndex_injective (k1 k2 : String) (n : Nat) (h1 : arrayIndex k1 = some n)
    (h2 : arrayIndex k2 = some n) : k1 = k2 := by
  have e1 := arrayIndex_canonical k1 n h1
  have e2 := arrayIndex_canonical k2 n h2
  apply String.ext
  exact e1.trans e2.symm

theorem keysOrdered_cons (a : String) (l : List String) :
    keysOrdered (a :: l) = (headBefore a l && keysOrdered l) := by
  cases l with
  | nil => rfl
  | cons b l => rfl

theorem keysOrdered_append_string (k : String) (hk : arrayIndex k = none) :
    ∀ (ks : List String), keysOrdered ks = true → keysOrdered (ks ++ [k]) = true
  | [], _ => rfl
  | [a], _ => by
      simp only [List.cons_append, List.nil_append, keysOrdered, Bool.and_true, keyBefore, hk]
      cases arrayIndex a <;> rfl
  | a :: b :: ks, h => by
      simp only [List.cons_append, keysOrdered, Bool.and_eq_true] at h ⊢
      exact ⟨h.1, keysOrdered_append_string k hk (b :: ks) h.2⟩

theorem memberKeys_insertIndex_head (k : String) (n : Nat) (v : JSVal) (a : String)
    (ha : keyBefore a k = true) :
    ∀ (kvs : List (String × JSVal)), headBefore a (memberKeys kvs) = true →
      headBefore a (memberKeys (insertIndex k n v kvs)) = true
  | [], _ => by simpa [insertIndex, memberKeys, headBefore] using ha
  | (k1, v1) :: kvs, h => by
      simp only [insertIndex]
      split
      · split
        · simpa [memberKeys, headBefore] using h
        · simpa [memberKeys, headBefore] using ha
      · simpa [memberKeys, headBefore] using ha

theorem keysOrdered_insertIndex (k : String) (n : Nat) (v : JSVal) (hk : arrayIndex k = some n) :
    ∀ (kvs : List (String × JSVal)), keysOrdered (memberKeys kvs) = true →
      (∀ k1 ∈ memberKeys kvs, arrayIndex k1 ≠ some n) →
      keysOrdered (memberKeys (insertIndex k n v kvs)) = true
  | [], _, _ => rfl
  | (k1, v1) :: kvs, h, hne => by
      have hk1 : arrayIndex k1 ≠ some n := hne k1 (by simp [memberKeys])
      have hrest : ∀ k2 ∈ memberKeys kvs, arrayIndex k2 ≠ some n :=
        fun k2 h2 => hne k2 (by simp [memberKeys, h2])
      simp only [memberKeys, keysOrdered_cons, Bool.and_eq_true] at h
      simp only [insertIndex]
      cases hidx : arrayIndex k1 with
      | none =>
          simp only [memberKeys, keysOrdered_cons, headBefore, Bool.and_eq_true]
          exact ⟨by simp [keyBefore, hk, hidx], h.1, h.2⟩
      | some m =>
          by_cases hlt : m < n
          · simp only [hlt, if_true, memberKeys, keysOrdered_cons, Bool.and_eq_true]
            refine ⟨?_, keysOrdered_insertIndex k n v hk kvs h.2 hrest⟩
            exact memberKeys_insertIndex_head k n v k1 (by simp [keyBefore, hk, hidx, hlt]) kvs h.1
          · simp only [hlt, if_false, memberKeys, keysOrdered_cons, headBefore, Bool.and_eq_true]
            have hmn : m ≠ n := fun e => hk1 (by rw [hidx, e])
            refine ⟨?_, h.1, h.2⟩
            simp only [keyBefore, hk, hidx, decide_eq_true_eq]
            omega

theorem memberKeys_insertIndex_perm (k : String) (n : Nat) (v : JSVal) :
    ∀ (kvs : List (String × JSVal)),
      (memberKeys (insertIndex k n v kvs)).Perm (k :: memberKeys kvs)
  | [] => by simp [insertIndex, memberKeys]
  | (k1, v1) :: kvs => by
      simp only [insertIndex]
      split
      · split
        · simp only [memberKeys]
          exact ((memberKeys_insertIndex_perm k n v kvs).cons k1).trans (List.Perm.swap k k1 _)
        · simp [memberKeys]
      · simp [memberKeys]

theorem allJsonMembers_insertIndex (k : String) (n : Nat) (v : JSVal) (hv : isJson v = true) :
    ∀ (kvs : List (String × JSVal)), allJsonMembers kvs = true →
      allJsonMembers (insertIndex k n v kvs) = true
  | [], _ => by simp [insertIndex, allJsonMembers, hv]
  | (k1, v1) :: kvs, h => by
      simp only [allJsonMembers, Bool.and_eq_true] at h
      simp only [insertIndex]
      split
      · split
        · simp [allJsonMembers, h.1, allJsonMembers_insertIndex k n v hv kvs h.2]
        · simp [allJsonMembers, h.1, h.2, hv]
      · simp [allJsonMembers, h.1, h.2, hv]

theorem allJsonMembers_replaceValue (k : String) (v : JSVal) (hv : isJson v = true) :
    ∀ (kvs : List (String × JSVal)), allJsonMembers kvs = true →
      allJsonMembers (replaceValue k v kvs) = true
  | [], _ => rfl
  | (k1, v1) :: kvs, h => by
      simp only [allJsonMembers, Bool.and_eq_true] at h
      by_cases hk : k1 = k
      · simp [replaceValue, hk, allJsonMembers, hv, h.2]
      · simp [replaceValue, hk, allJsonMembers, h.1, allJsonMembers_replaceValue k v hv kvs h.2]

theorem allJsonMembers_append (v : JSVal) (k : String) (hv : isJson v = true) :
    ∀ (kvs : List (String × JSVal)), allJsonMembers kvs = true →
      allJsonMembers (kvs ++ [(k, v)]) = true
  | [], _ => by simp [allJsonMembers, hv]
  | (k1, v1) :: kvs, h => by
      simp only [allJsonMembers, Bool.and_eq_true] at h
      simp [allJsonMembers, h.1, allJsonMembers_append v k hv kvs h.2]

theorem not_mem_of_any_false (k : String) (kvs : List (String × JSVal))
    (h : kvs.any (fun p => decide (p.1 = k)) = false) : k ∉ memberKeys kvs := by
  rw [memberKeys_eq_map]
  intro hmem
  obtain ⟨p, hp, hpk⟩ := List.mem_map.1 hmem
  simp only [List.any_eq_false, decide_eq_true_eq] at h
  exact h p hp hpk

/-- `CreateDataProperty` keeps the keys of an object in enumeration order. -/
theorem keysNormal_createDataProperty (kvs : List (String × JSVal)) (k : String) (v : JSVal)
    (hn : keysNormal (memberKeys kvs) = true) :
    keysNormal (memberKeys (createDataProperty kvs k v)) = true := by
  unfold createDataProperty
  cases hany : kvs.any (fun p => decide (p.1 = k)) with
  | true =>
      simp only [if_true]
      rw [memberKeys_replaceValue]
      exact hn
  | false =>
      have hk := not_mem_of_any_false k kvs hany
      simp only [keysNormal, Bool.and_eq_true, decide_eq_true_eq] at hn
      simp only [Bool.false_eq_true, if_false]
      cases hidx : arrayIndex k with
      | none =>
          have e : memberKeys (kvs ++ [(k, v)]) = memberKeys kvs ++ [k] := by
            simp [memberKeys_eq_map]
          simp only [e, keysNormal, Bool.and_eq_true, decide_eq_true_eq]
          refine ⟨?_, keysOrdered_append_string k hidx _ hn.2⟩
          rw [List.nodup_append]
          refine ⟨hn.1, List.nodup_singleton k, ?_⟩
          intro a ha1 ha2
          simp only [List.mem_singleton] at ha2
          subst ha2
          exact hk ha1
      | some n =>
          simp only [keysNormal, Bool.and_eq_true, decide_eq_true_eq]
          refine ⟨?_, keysOrdered_insertIndex k n v hidx kvs hn.2 ?_⟩
          · rw [(memberKeys_insertIndex_perm k n v kvs).nodup_iff]
            exact List.nodup_cons.2 ⟨hk, hn.1⟩
          · intro k1 hk1 hidx1
            have := arrayIndex_injective k1 k n hidx1 hidx
            subst this
            exact hk hk1

theorem mem_replaceValue (k : String) (v : JSVal) (p : String × JSVal) :
    ∀ (kvs : List (String × JSVal)), p ∈ replaceValue k v kvs → p ∈ kvs ∨ p = (k, v)
  | [], h => by simp [replaceValue] at h
  | (k1, v1) :: kvs, h => by
      by_cases hk : k1 = k
      · simp only [replaceValue, hk, if_true, List.mem_cons] at h
        rcases h with h | h
        · exact Or.inr h
        · exact Or.inl (List.mem_cons_of_mem _ h)
      · simp only [replaceValue, hk, if_false, List.mem_cons] at h
        rcases h with h | h
        · exact Or.inl (by rw [h]; exact List.mem_cons_self _ _)
        · rcases mem_replaceValue k v p kvs h with h1 | h1
          · exact Or.inl (List.mem_cons_of_mem _ h1)
          · exact Or.inr h1

theorem mem_insertIndex (k : String) (n : Nat) (v : JSVal) (p : String × JSVal) :
    ∀ (kvs : List (String × JSVal)), p ∈ insertIndex k n v kvs → p ∈ kvs ∨ p = (k, v)
  | [], h => by
      simp only [insertIndex, List.mem_singleton] at h
      exact Or.inr h
  | (k1, v1) :: kvs, h => by
      simp only [insertIndex] at h
      split at h
      · split at h
        · simp only [List.mem_cons] at h
          rcases h with h | h
          · exact Or.inl (by rw [h]; exact List.mem_cons_self _ _)
          · rcases mem_insertIndex k n v p kvs h with h1 | h1
            · exact Or.inl (List.mem_cons_of_mem _ h1)
            · exact Or.inr h1
        · simp only [List.mem_cons] at h
          rcases h with h | h
          · exact Or.inr h
          · exact Or.inl (List.mem_cons.2 h)
      · simp only [List.mem_cons] at h
        rcases h with h | h
        · exact Or.inr h
        · exact Or.inl (List.mem_cons.2 h)

/-- `CreateDataProperty` adds the given property and nothing else. -/
theorem mem_createDataProperty (kvs : List (String × JSVal)) (k : String) (v : JSVal)
    (p : String × JSVal) (h : p ∈ createDataProperty kvs k v) : p ∈ kvs ∨ p = (k, v) := by
  unfold createDataProperty at h
  split at h
  · exact mem_replaceValue k v p kvs h
  · split at h
    · exact mem_insertIndex k _ v p kvs h
    · simp only [List.mem_append, List.mem_singleton] at h
      exact h

theorem foldl_createDataProperty_keys : ∀ (ms acc : List (String × JSVal)),
    keysNormal (memberKeys acc) = true →
    keysNormal (memberKeys (ms.foldl (fun a p => createDataProperty a p.1 p.2) acc)) = true
  | [], _, hn => hn
  | (k, v) :: ms, acc, hn =>
      foldl_createDataProperty_keys ms _ (keysNormal_createDataProperty acc k v hn)

theorem foldl_createDataProperty_mem (p : String × JSVal) :
    ∀ (ms acc : List (String × JSVal)),
      p ∈ ms.foldl (fun a q => createDataProperty a q.1 q.2) acc → p ∈ acc ∨ p ∈ ms
  | [], _, h => Or.inl h
  | (k, v) :: ms, acc, h => by
      rcases foldl_createDataProperty_mem p ms _ h with h1 | h1
      · rcases mem_createDataProperty acc k v p h1 with h2 | h2
        · exact Or.inl h2
        · exact Or.inr (by rw [h2]; exact List.mem_cons_self _ _)
      · exact Or.inr (List.mem_cons_of_mem _ h1)

theorem mem_buildObject (ms : List (String × JSVal)) (p : String × JSVal)
    (h : p ∈ buildObject ms) : p ∈ ms := by
  rcases foldl_createDataProperty_mem p ms [] h with h1 | h1
  · simp at h1
  · exact h1

theorem allSafe_mem : ∀ (vs : List JSVal), allSafe vs = true → ∀ v ∈ vs, numbersSafe v = true
  | [], _, v, hv => by simp at hv
  | x :: xs, h, v, hv => by
      simp only [allSafe, Bool.and_eq_true] at h
      rcases List.mem_cons.1 hv with rfl | hv
      · exact h.1
      · exact allSafe_mem xs h.2 v hv

theorem allSafeMembers_mem : ∀ (kvs : List (String × JSVal)), allSafeMembers kvs = true →
    ∀ p ∈ kvs, numbersSafe p.2 = true
  | [], _, p, hp => by simp at hp
  | (k, x) :: kvs, h, p, hp => by
      simp only [allSafeMembers, Bool.and_eq_true] at h
      rcases List.mem_cons.1 hp with rfl | hp
      · exact h.1
      · exact allSafeMembers_mem kvs h.2 p hp

theorem allJson_of_mem : ∀ (vs : List JSVal), (∀ v ∈ vs, isJson v = true) → allJson vs = true
  | [], _ => rfl
  | x :: xs, h => by
      simp only [allJson, Bool.and_eq_true]
      exact ⟨h x (List.mem_cons_self _ _),
        allJson_of_mem xs (fun v hv => h v (List.mem_cons_of_mem _ hv))⟩

theorem allJsonMembers_of_mem : ∀ (kvs : List (String × JSVal)),
    (∀ p ∈ kvs, isJson p.2 = true) → allJsonMembers kvs = true
  | [], _ => rfl
  | (k, x) :: kvs, h => by
      simp only [allJsonMembers, Bool.and_eq_true]
      exact ⟨h (k, x) (List.mem_cons_self _ _),
        allJsonMembers_of_mem kvs (fun p hp => h p (List.mem_cons_of_mem _ hp))⟩

theorem safe_num (x : Number) (h : numbersSafe (.num x) = true) : isJson (.num x) = true := by
  cases x <;> simp_all [numbersSafe, isJson]

theorem safe_cons {α : Type} (q r : α → Prop) (a : α) (l : List α) (ha : q a → r a)
    (hl : ∀ x ∈ l, q x → r x) : ∀ x ∈ a :: l, q x → r x := by
  intro x hx
  rcases List.mem_cons.1 hx with rfl | hx
  · exact ha
  · exact hl x hx

theorem safe_arr (vs : List JSVal)
    (h : ∀ v ∈ vs, numbersSafe v = true → isJson v = true)
    (hs : numbersSafe (.arr vs) = true) : isJson (.arr vs) = true := by
  have hall : allSafe vs = true := by simpa [numbersSafe] using hs
  have : allJson vs = true := allJson_of_mem vs (fun v hv => h v hv (allSafe_mem vs hall v hv))
  simpa [isJson] using this

theorem safe_obj (ms : List (String × JSVal))
    (h : ∀ p ∈ ms, numbersSafe p.2 = true → isJson p.2 = true)
    (hs : numbersSafe (.obj (buildObject ms)) = true) : isJson (.obj (buildObject ms)) = true := by
  have hall : allSafeMembers (buildObject ms) = true := by simpa [numbersSafe] using hs
  have hk : keysNormal (memberKeys (buildObject ms)) = true :=
    foldl_createDataProperty_keys ms [] rfl
  have hv : allJsonMembers (buildObject ms) = true :=
    allJsonMembers_of_mem _ (fun p hp =>
      h p (mem_buildObject ms p hp) (allSafeMembers_mem _ hall p hp))
  simp only [isJson, Bool.and_eq_true]
  exact ⟨hk, hv⟩

/-- Of what the parser returns, whatever holds safe integers only is a JSON
value. -/
theorem parse_results (nf : String → Number) : ∀ (fuel : Nat),
    (∀ cs v rest, parseValue nf fuel cs = some (v, rest) →
      numbersSafe v = true → isJson v = true) ∧
    (∀ cs vs rest, parseElems nf fuel cs = some (vs, rest) →
      ∀ v ∈ vs, numbersSafe v = true → isJson v = true) ∧
    (∀ cs m rest, parseMember nf fuel cs = some (m, rest) →
      numbersSafe m.2 = true → isJson m.2 = true) ∧
    (∀ cs ms rest, parseMembers nf fuel cs = some (ms, rest) →
      ∀ p ∈ ms, numbersSafe p.2 = true → isJson p.2 = true)
  | 0 => by simp [parseValue, parseElems, parseMember, parseMembers]
  | fuel + 1 => by
      obtain ⟨ihV, ihE, ihM, ihMs⟩ := parse_results nf fuel
      refine ⟨?_, ?_, ?_, ?_⟩
      · intro cs v rest h
        rw [parseValue] at h
        repeat' split at h
        all_goals cases h
        all_goals first
          | exact fun _ => rfl
          | exact safe_arr _ (safe_cons _ _ _ _ (ihV _ _ _ (by assumption))
              (ihE _ _ _ (by assumption)))
          | exact safe_obj _ (safe_cons _ _ _ _ (ihM _ _ _ (by assumption))
              (ihMs _ _ _ (by assumption)))
          | exact safe_num _
      · intro cs vs rest h
        rw [parseElems] at h
        repeat' split at h
        all_goals cases h
        all_goals first
          | exact safe_cons _ _ _ _ (ihV _ _ _ (by assumption)) (ihE _ _ _ (by assumption))
          | (intro v hv; simp at hv)
      · intro cs m rest h
        rw [parseMember] at h
        repeat' split at h
        all_goals cases h
        all_goals exact ihV _ _ _ (by assumption)
      · intro cs ms rest h
        rw [parseMembers] at h
        repeat' split at h
        all_goals cases h
        all_goals first
          | exact safe_cons _ _ _ _ (ihM _ _ _ (by assumption)) (ihMs _ _ _ (by assumption))
          | (intro v hv; simp at hv)

/-- A value `JSON.parse` returns that holds safe integers only is a JSON
value: `JSON.stringify` and `JSON.parse` carry it unchanged. -/
theorem isJson_of_parse (nf : String → Number) (text : String) (v : JSVal)
    (h : parse nf text = some v) (hs : numbersSafe v = true) : isJson v = true := by
  unfold parse at h
  split at h
  · cases h
  · split at h
    · simp only [Option.some.injEq] at h
      subst h
      exact (parse_results nf _).1 _ _ _ (by assumption) hs
    · cases h

theorem parseValue_arr_elems (nf : String → Number) (fuel : Nat) (cs : List Char)
    (vs : List JSVal) (rest : List Char) (h : parseValue nf fuel cs = some (.arr vs, rest)) :
    ∀ v ∈ vs, numbersSafe v = true → isJson v = true := by
  cases fuel with
  | zero => simp [parseValue] at h
  | succ fuel =>
      obtain ⟨ihV, ihE, _, _⟩ := parse_results nf fuel
      rw [parseValue] at h
      repeat' split at h
      all_goals cases h
      all_goals first
        | exact safe_cons _ _ _ _ (ihV _ _ _ (by assumption)) (ihE _ _ _ (by assumption))
        | (intro v hv; simp at hv)

/-- Of the elements of an array `JSON.parse` returns, whatever holds safe
integers only is a JSON value. -/
theorem parse_arr_elems (nf : String → Number) (text : String) (vs : List JSVal)
    (h : parse nf text = some (.arr vs)) :
    ∀ v ∈ vs, numbersSafe v = true → isJson v = true := by
  unfold parse at h
  split at h
  · cases h
  · split at h
    · simp only [Option.some.injEq] at h
      subst h
      exact parseValue_arr_elems nf _ _ _ _ (by assumption)
    · cases h

end JSON

/-! ### Runs of the two ceremonies -/

/-- Every way a run of `authenticate` can go. -/
theorem authenticate_cases (w : World) (t : Nat) :
    (w.name_value t = "" ∧ authenticate w t = ⟨[], .ok ()⟩) ∨
    (w.name_value t ≠ "" ∧ w.fetch (startLogin w t) = .networkError ∧
      authenticate w t = ⟨[.fetch (startLogin w t)], .error .networkError⟩) ∨
    (∃ status body e, w.name_value t ≠ "" ∧ w.fetch (startLogin w t) = .response status body ∧
      prepare w.numberOf decodeLoginOptions body = .error e ∧
      authenticate w t = ⟨[.fetch (startLogin w t)], .error e⟩) ∨
    (∃ status body o id, w.name_value t ≠ "" ∧
      w.fetch (startLogin w t) = .response status body ∧
      prepare w.numberOf decodeLoginOptions body = .ok (o, id) ∧
      w.credentialsGet o = .rejected ∧
      authenticate w t = ⟨[.fetch (startLogin w t), .credentialsGet o], .error .notAllowedError⟩) ∨
    (∃ status body o id, w.name_value t ≠ "" ∧
      w.fetch (startLogin w t) = .response status body ∧
      prepare w.numberOf decodeLoginOptions body = .ok (o, id) ∧
      w.credentialsGet o = .resolved none ∧
      authenticate w t = ⟨[.fetch (startLogin w t), .credentialsGet o], .error .typeError⟩) ∨
    (∃ status body o id c, w.name_value t ≠ "" ∧
      w.fetch (startLogin w t) = .response status body ∧
      prepare w.numberOf decodeLoginOptions body = .ok (o, id) ∧
      w.credentialsGet o = .resolved (some c) ∧
      w.fetch (post "/finish-login" (finishLoginBody id c)) = .networkError ∧
      authenticate w t = ⟨[.fetch (startLogin w t), .credentialsGet o,
        .fetch (post "/finish-login" (finishLoginBody id c))], .error .networkError⟩) ∨
    (∃ status body o id c status1 token, w.name_value t ≠ "" ∧
      w.fetch (startLogin w t) = .response status body ∧
      prepare w.numberOf decodeLoginOptions body = .ok (o, id) ∧
      w.credentialsGet o = .resolved (some c) ∧
      w.fetch (post "/finish-login" (finishLoginBody id c)) = .response status1 token ∧
      authenticate w t = ⟨[.fetch (startLogin w t), .credentialsGet o,
        .fetch (post "/finish-login" (finishLoginBody id c)),
        .cookie ("SessionToken=" ++ token), .location "/"], .ok ()⟩) := by
  by_cases hn : w.name_value t = ""
  · left
    exact ⟨hn, by simp [authenticate, hn, pure]⟩
  right
  cases hf : w.fetch (startLogin w t) with
  | networkError =>
      left
      refine ⟨hn, rfl, ?_⟩
      simp only [startLogin] at hf
      simp [authenticate, hn, bind, Run.bind, fetch, hf, startLogin]
  | response status body =>
      right
      simp only [startLogin] at hf
      cases hp : JSON.parse w.numberOf body with
      | none =>
          left
          refine ⟨status, body, .syntaxError, hn, rfl, by simp [prepare, hp], ?_⟩
          simp [authenticate, hn, bind, Run.bind, fetch, hf, startLogin, Response.json, Run.lift, hp]
      | some value =>
          cases hd : destructure2 value with
          | error e =>
              left
              refine ⟨status, body, e, hn, rfl, by simp [prepare, hp, hd], ?_⟩
              simp [authenticate, hn, bind, Run.bind, fetch, hf, startLogin, Response.json,
                Run.lift, hp, hd]
          | ok pair =>
              obtain ⟨options, id⟩ := pair
              cases ho : decodeLoginOptions options with
              | error e =>
                  left
                  refine ⟨status, body, e, hn, rfl, by simp [prepare, hp, hd, ho], ?_⟩
                  simp [authenticate, hn, bind, Run.bind, fetch, hf, startLogin, Response.json,
                    Run.lift, hp, hd, ho]
              | ok o =>
                  right
                  have hprep : prepare w.numberOf decodeLoginOptions body = .ok (o, id) := by
                    simp [prepare, hp, hd, ho]
                  cases hg : w.credentialsGet o with
                  | rejected =>
                      left
                      refine ⟨status, body, o, id, hn, rfl, hprep, hg, ?_⟩
                      simp [authenticate, hn, bind, Run.bind, fetch, hf, startLogin, Response.json,
                        Run.lift, hp, hd, ho, navigator.credentials.get, hg]
                  | resolved oc =>
                      right
                      cases oc with
                      | none =>
                          left
                          refine ⟨status, body, o, id, hn, rfl, hprep, hg, ?_⟩
                          simp [authenticate, hn, bind, Run.bind, fetch, hf, startLogin,
                            Response.json, Run.lift, hp, hd, ho, navigator.credentials.get, hg]
                      | some c =>
                          right
                          cases hfin : w.fetch (post "/finish-login" (finishLoginBody id c)) with
                          | networkError =>
                              left
                              refine ⟨status, body, o, id, c, hn, rfl, hprep, hg, hfin, ?_⟩
                              simp [authenticate, hn, bind, Run.bind, fetch, hf, startLogin,
                                Response.json, Run.lift, hp, hd, ho, navigator.credentials.get, hg,
                                hfin]
                          | response status1 token =>
                              right
                              refine ⟨status, body, o, id, c, status1, token, hn, rfl, hprep, hg,
                                hfin, ?_⟩
                              simp [authenticate, hn, bind, Run.bind, fetch, hf, startLogin,
                                Response.json, Run.lift, hp, hd, ho, navigator.credentials.get, hg,
                                hfin, Response.text, setCookie, setLocation, pure]

/-- Every way a run of the register handler can go. -/
theorem register_cases (w : World) :
    (w.name_value 0 = "" ∧ register_click w = ⟨[], .ok ()⟩) ∨
    (w.name_value 0 ≠ "" ∧ w.fetch (startRegister w) = .networkError ∧
      register_click w = ⟨[.fetch (startRegister w)], .error .networkError⟩) ∨
    (∃ status body e, w.name_value 0 ≠ "" ∧ w.fetch (startRegister w) = .response status body ∧
      prepare w.numberOf decodeRegisterOptions body = .error e ∧
      register_click w = ⟨[.fetch (startRegister w)], .error e⟩) ∨
    (∃ status body o id, w.name_value 0 ≠ "" ∧
      w.fetch (startRegister w) = .response status body ∧
      prepare w.numberOf decodeRegisterOptions body = .ok (o, id) ∧
      w.credentialsCreate o = .rejected ∧
      register_click w = ⟨[.fetch (startRegister w), .credentialsCreate o],
        .error .notAllowedError⟩) ∨
    (∃ status body o id, w.name_value 0 ≠ "" ∧
      w.fetch (startRegister w) = .response status body ∧
      prepare w.numberOf decodeRegisterOptions body = .ok (o, id) ∧
      w.credentialsCreate o = .resolved none ∧
      register_click w = ⟨[.fetch (startRegister w), .credentialsCreate o], .error .typeError⟩) ∨
    (∃ status body o id c, w.name_value 0 ≠ "" ∧
      w.fetch (startRegister w) = .response status body ∧
      prepare w.numberOf decodeRegisterOptions body = .ok (o, id) ∧
      w.credentialsCreate o = .resolved (some c) ∧
      w.fetch (post "/finish-register" (finishRegisterBody id c)) = .networkError ∧
      register_click w = ⟨[.fetch (startRegister w), .credentialsCreate o,
        .fetch (post "/finish-register" (finishRegisterBody id c))], .error .networkError⟩) ∨
    (∃ status body o id c status1 body1, w.name_value 0 ≠ "" ∧
      w.fetch (startRegister w) = .response status body ∧
      prepare w.numberOf decodeRegisterOptions body = .ok (o, id) ∧
      w.credentialsCreate o = .resolved (some c) ∧
      w.fetch (post "/finish-register" (finishRegisterBody id c)) = .response status1 body1 ∧
      register_click w = ⟨[.fetch (startRegister w), .credentialsCreate o,
        .fetch (post "/finish-register" (finishRegisterBody id c))] ++ (authenticate w 1).trace,
        (authenticate w 1).outcome⟩) := by
  by_cases hn : w.name_value 0 = ""
  · left
    exact ⟨hn, by simp [register_click, hn, pure]⟩
  right
  cases hf : w.fetch (startRegister w) with
  | networkError =>
      left
      refine ⟨hn, rfl, ?_⟩
      simp only [startRegister] at hf
      simp [register_click, hn, bind, Run.bind, fetch, hf, startRegister]
  | response status body =>
      right
      simp only [startRegister] at hf
      cases hp : JSON.parse w.numberOf body with
      | none =>
          left
          refine ⟨status, body, .syntaxError, hn, rfl, by simp [prepare, hp], ?_⟩
          simp [register_click, hn, bind, Run.bind, fetch, hf, startRegister, Response.json,
            Run.lift, hp]
      | some value =>
          cases hd : destructure2 value with
          | error e =>
              left
              refine ⟨status, body, e, hn, rfl, by simp [prepare, hp, hd], ?_⟩
              simp [register_click, hn, bind, Run.bind, fetch, hf, startRegister, Response.json,
                Run.lift, hp, hd]
          | ok pair =>
              obtain ⟨options, id⟩ := pair
              cases ho : decodeRegisterOptions options with
              | error e =>
                  left
                  refine ⟨status, body, e, hn, rfl, by simp [prepare, hp, hd, ho], ?_⟩
                  simp [register_click, hn, bind, Run.bind, fetch, hf, startRegister,
                    Response.json, Run.lift, hp, hd, ho]
              | ok o =>
                  right
                  have hprep : prepare w.numberOf decodeRegisterOptions body = .ok (o, id) := by
                    simp [prepare, hp, hd, ho]
                  cases hg : w.credentialsCreate o with
                  | rejected =>
                      left
                      refine ⟨status, body, o, id, hn, rfl, hprep, hg, ?_⟩
                      simp [register_click, hn, bind, Run.bind, fetch, hf, startRegister,
                        Response.json, Run.lift, hp, hd, ho, navigator.credentials.create, hg]
                  | resolved oc =>
                      right
                      cases oc with
                      | none =>
                          left
                          refine ⟨status, body, o, id, hn, rfl, hprep, hg, ?_⟩
                          simp [register_click, hn, bind, Run.bind, fetch, hf, startRegister,
                            Response.json, Run.lift, hp, hd, ho, navigator.credentials.create, hg]
                      | some c =>
                          right
                          cases hfin : w.fetch (post "/finish-register" (finishRegisterBody id c)) with
                          | networkError =>
                              left
                              refine ⟨status, body, o, id, c, hn, rfl, hprep, hg, hfin, ?_⟩
                              simp [register_click, hn, bind, Run.bind, fetch, hf, startRegister,
                                Response.json, Run.lift, hp, hd, ho, navigator.credentials.create,
                                hg, hfin]
                          | response status1 body1 =>
                              right
                              refine ⟨status, body, o, id, c, status1, body1, hn, rfl, hprep, hg,
                                hfin, ?_⟩
                              simp [register_click, hn, bind, Run.bind, fetch, hf, startRegister,
                                Response.json, Run.lift, hp, hd, ho, navigator.credentials.create,
                                hg, hfin]

/-! ### Decoding the options -/

theorem prepare_ok (nf : String → Number) (decode : JSVal → Except Err JSVal) (body : String)
    (o id : JSVal) (h : prepare nf decode body = .ok (o, id)) :
    ∃ value options, JSON.parse nf body = some value ∧ destructure2 value = .ok (options, id) ∧
      decode options = .ok o := by
  unfold prepare at h
  cases hp : JSON.parse nf body with
  | none => simp [hp] at h
  | some value =>
      cases hd : destructure2 value with
      | error e => simp [hp, hd] at h
      | ok pair =>
          obtain ⟨options, id1⟩ := pair
          cases ho : decode options with
          | error e => simp [hp, hd, ho] at h
          | ok o1 =>
              simp only [hp, hd, ho, Except.ok.injEq, Prod.mk.injEq] at h
              obtain ⟨h1, h2⟩ := h
              subst h1 h2
              exact ⟨value, options, rfl, hd, ho⟩


theorem toUint8ArrayOf_ok (x y : JSVal) (h : toUint8ArrayOf x = .ok y) :
    ∃ s b, x = .str s ∧ Base64.toUint8Array s = some b ∧ y = .u8a b := by
  cases x <;> simp only [toUint8ArrayOf, reduceCtorEq] at h
  case str s =>
    cases hb : Base64.toUint8Array s with
    | none => simp [hb] at h
    | some b =>
        simp only [hb, Except.ok.injEq] at h
        exact ⟨s, b, rfl, hb, h.symm⟩

theorem prop_eq_obj (v : JSVal) (k : String) (kvs : List (String × JSVal))
    (h : v.prop k = .ok (.obj kvs)) :
    ∃ vkvs, v = .obj vkvs ∧ JSON.own k vkvs = some (.obj kvs) := by
  cases v <;> simp only [JSVal.prop, reduceCtorEq, Except.ok.injEq] at h
  case obj vkvs =>
    cases ho : JSON.own k vkvs with
    | none => simp [ho] at h
    | some x =>
        simp only [ho, Option.getD_some] at h
        exact ⟨vkvs, rfl, by rw [ho, h]⟩

theorem prop_eq_arr (v : JSVal) (k : String) (xs : List JSVal)
    (h : v.prop k = .ok (.arr xs)) :
    ∃ vkvs, v = .obj vkvs ∧ JSON.own k vkvs = some (.arr xs) := by
  cases v <;> simp only [JSVal.prop, reduceCtorEq, Except.ok.injEq] at h
  case obj vkvs =>
    cases ho : JSON.own k vkvs with
    | none => simp [ho] at h
    | some x =>
        simp only [ho, Option.getD_some] at h
        exact ⟨vkvs, rfl, by rw [ho, h]⟩

theorem decodeProp_ok (o decoded : JSVal) (k : String) (h : decodeProp o k = .ok decoded) :
    ∃ kvs s b, o = .obj kvs ∧ JSON.own k kvs = some (.str s) ∧
      Base64.toUint8Array s = some b ∧ decoded = .obj (JSON.replaceValue k (.u8a b) kvs) := by
  unfold decodeProp at h
  cases hp : o.prop k with
  | error e => simp [hp] at h
  | ok x =>
      cases hx : toUint8ArrayOf x with
      | error e => simp [hp, hx] at h
      | ok y =>
          simp only [hp, hx, Except.ok.injEq] at h
          obtain ⟨s, b, rfl, hb, rfl⟩ := toUint8ArrayOf_ok x y hx
          cases o <;> simp only [JSVal.prop, reduceCtorEq, Except.ok.injEq] at hp
          case obj kvs =>
            cases ho : JSON.own k kvs with
            | none => simp [ho] at hp
            | some z =>
                simp only [ho, Option.getD_some] at hp
                subst hp
                refine ⟨kvs, s, b, rfl, ho, hb, ?_⟩
                rw [← h]
                simp [JSVal.assign, JSON.createDataProperty_of_own k _ _ kvs ho]

theorem forEachDecodeId_ok : ∀ (items decoded : List JSVal),
    forEachDecodeId items = .ok decoded → List.Forall₂ DecodedItem items decoded
  | [], decoded, h => by
      simp only [forEachDecodeId, Except.ok.injEq] at h
      subst h
      exact List.Forall₂.nil
  | item :: items, decoded, h => by
      unfold forEachDecodeId at h
      cases h1 : decodeProp item "id" with
      | error e => simp [h1] at h
      | ok item1 =>
          cases h2 : forEachDecodeId items with
          | error e => simp [h1, h2] at h
          | ok items1 =>
              simp only [h1, h2, Except.ok.injEq] at h
              subst h
              exact List.Forall₂.cons (decodeProp_ok item item1 "id" h1)
                (forEachDecodeId_ok items items1 h2)

theorem decodeLoginOptions_ok (options decoded : JSVal)
    (h : decodeLoginOptions options = .ok decoded) : LoginDecoded options decoded := by
  unfold decodeLoginOptions at h
  cases h1 : options.prop "publicKey" with
  | error e => simp [h1] at h
  | ok publicKey =>
      cases h2 : decodeProp publicKey "challenge" with
      | error e => simp [h1, h2] at h
      | ok publicKey1 =>
          obtain ⟨pkvs, c, cb, rfl, hc, hcb, rfl⟩ := decodeProp_ok _ _ _ h2
          obtain ⟨okvs, rfl, hpk⟩ := prop_eq_obj _ _ _ h1
          cases h3 : (JSVal.obj (JSON.replaceValue "challenge" (.u8a cb) pkvs)).prop
              "allowCredentials" with
          | error e => simp [h1, h2, h3] at h
          | ok ac =>
              cases ac <;> simp only [h1, h2, h3, reduceCtorEq] at h
              case arr items =>
                cases h4 : forEachDecodeId items with
                | error e => simp [h4] at h
                | ok items1 =>
                    simp only [h4, Except.ok.injEq] at h
                    obtain ⟨pkvs1, hpk1, hac⟩ := prop_eq_arr _ _ _ h3
                    cases hpk1
                    have hac0 : JSON.own "allowCredentials" pkvs = some (.arr items) := by
                      rw [JSON.own_replaceValue_ne "challenge" "allowCredentials" _ (by decide)]
                        at hac
                      exact hac
                    refine ⟨okvs, pkvs, c, cb, items, items1, rfl, hpk, hc, hcb, hac0,
                      forEachDecodeId_ok items items1 h4, ?_⟩
                    rw [← h]
                    simp [JSVal.assign, JSON.createDataProperty_of_own _ _ _ _ hac,
                      JSON.createDataProperty_of_own _ _ _ _ hpk]

theorem decodeRegisterOptions_ok (options decoded : JSVal)
    (h : decodeRegisterOptions options = .ok decoded) : RegisterDecoded options decoded := by
  unfold decodeRegisterOptions at h
  cases h1 : options.prop "publicKey" with
  | error e => simp [h1] at h
  | ok publicKey =>
      cases h2 : decodeProp publicKey "challenge" with
      | error e => simp [h1, h2] at h
      | ok publicKey1 =>
          obtain ⟨pkvs, c, cb, rfl, hc, hcb, rfl⟩ := decodeProp_ok _ _ _ h2
          obtain ⟨okvs, rfl, hpk⟩ := prop_eq_obj _ _ _ h1
          cases h3 : (JSVal.obj (JSON.replaceValue "challenge" (.u8a cb) pkvs)).prop "user" with
          | error e => simp [h1, h2, h3] at h
          | ok user =>
              cases h4 : decodeProp user "id" with
              | error e => simp [h1, h2, h3, h4] at h
              | ok user1 =>
                  simp only [h1, h2, h3, h4, Except.ok.injEq] at h
                  obtain ⟨ukvs, u, ub, rfl, hu, hub, rfl⟩ := decodeProp_ok _ _ _ h4
                  obtain ⟨pkvs1, hpk1, huser⟩ := prop_eq_obj _ _ _ h3
                  cases hpk1
                  have huser0 : JSON.own "user" pkvs = some (.obj ukvs) := by
                    rw [JSON.own_replaceValue_ne "challenge" "user" _ (by decide)] at huser
                    exact huser
                  refine ⟨okvs, pkvs, c, cb, ukvs, u, ub, rfl, hpk, hc, hcb, huser0, hu, hub, ?_⟩
                  rw [← h]
                  simp [JSVal.assign, JSON.createDataProperty_of_own _ _ _ _ huser,
                    JSON.createDataProperty_of_own _ _ _ _ hpk]

/-! ### The finish bodies read back -/

theorem parse_finishLoginBody (nf : String → Number) (id : JSVal) (c : Assertion)
    (h : JSON.isJson id = true) :
    ∃ credential, JSON.parse nf (finishLoginBody id c) = some (.arr [id, credential]) := by
  refine ⟨_, JSON.parse_stringify nf _ ?_⟩
  have hk : JSON.keysNormal ["id", "rawId", "response", "type"] = true := by decide
  have hk2 : JSON.keysNormal ["authenticatorData", "clientDataJSON", "signature", "userHandle"]
      = true := by decide
  simp [JSON.isJson, JSON.allJson, JSON.allJsonMembers, JSON.memberKeys, h, hk, hk2]

theorem parse_finishRegisterBody (nf : String → Number) (id : JSVal) (c : Attestation)
    (h : JSON.isJson id = true) :
    ∃ credential, JSON.parse nf (finishRegisterBody id c) = some (.arr [id, credential]) := by
  refine ⟨_, JSON.parse_stringify nf _ ?_⟩
  have hk : JSON.keysNormal ["id", "rawId", "response", "type"] = true := by decide
  have hk2 : JSON.keysNormal ["attestationObject", "clientDataJSON"] = true := by decide
  simp [JSON.isJson, JSON.allJson, JSON.allJsonMembers, JSON.memberKeys, h, hk, hk2]

theorem isJson_second (nf : String → Number) (text : String) (options id : JSVal)
    (h : JSON.parse nf text = some (.arr [options, id])) (hs : JSON.numbersSafe id = true) :
    JSON.isJson id = true :=
  JSON.parse_arr_elems nf text _ h id (by simp) hs

/-! ### The finish requests -/

theorem authenticate_no_finish_register (w : World) (t : Nat) :
    ∀ e ∈ (authenticate w t).trace, e.isFetchTo "/finish-register" = false := by
  rcases authenticate_cases w t with ⟨_, h⟩ | ⟨_, _, h⟩ | ⟨_, _, _, _, _, _, h⟩ |
    ⟨_, _, _, _, _, _, _, _, h⟩ | ⟨_, _, _, _, _, _, _, _, h⟩ |
    ⟨_, _, _, _, _, _, _, _, _, _, h⟩ | ⟨_, _, _, _, _, _, _, _, _, _, _, _, h⟩ <;>
    simp [h, Effect.isFetchTo, startLogin, post]

/-- The `/finish-login` request of a run of `authenticate`: where its parts
come from. -/
theorem finish_login_request (w : World) (t : Nat) (r : Request)
    (hr : Effect.fetch r ∈ (authenticate w t).trace) (hurl : r.url = "/finish-login") :
    ∃ status body o id c,
      w.fetch (startLogin w t) = .response status body ∧
      prepare w.numberOf decodeLoginOptions body = .ok (o, id) ∧
      Effect.credentialsGet o ∈ (authenticate w t).trace ∧
      w.credentialsGet o = .resolved (some c) ∧
      r = post "/finish-login" (finishLoginBody id c) := by
  have hne : ¬ (startLogin w t).url = "/finish-login" := by simp [startLogin, post]
  rcases authenticate_cases w t with ⟨_, h⟩ | ⟨_, _, h⟩ | ⟨_, _, _, _, _, _, h⟩ |
    ⟨_, _, o, _, _, _, _, _, h⟩ | ⟨_, _, o, _, _, _, _, _, h⟩ |
    ⟨status, body, o, id, c, _, hf, hp, hg, _, h⟩ |
    ⟨status, body, o, id, c, _, _, _, hf, hp, hg, _, h⟩
  · simp [h] at hr
  · simp only [h, List.mem_singleton, Effect.fetch.injEq] at hr
    subst hr
    exact absurd hurl hne
  · simp only [h, List.mem_singleton, Effect.fetch.injEq] at hr
    subst hr
    exact absurd hurl hne
  · simp only [h, List.mem_cons, Effect.fetch.injEq, List.mem_singleton, reduceCtorEq,
      List.not_mem_nil, or_false] at hr
    subst hr
    exact absurd hurl hne
  · simp only [h, List.mem_cons, Effect.fetch.injEq, List.mem_singleton, reduceCtorEq,
      List.not_mem_nil, or_false] at hr
    subst hr
    exact absurd hurl hne
  all_goals
    simp only [h, List.mem_cons, Effect.fetch.injEq, List.mem_singleton, reduceCtorEq,
      List.not_mem_nil, or_false, false_or] at hr
    rcases hr with hr | hr
    · subst hr
      exact absurd hurl hne
    · subst hr
      exact ⟨status, body, o, id, c, hf, hp, by simp [h], hg, rfl⟩

/-- The `/finish-register` request of a run of the register handler: where
its parts come from. -/
theorem finish_register_request (w : World) (r : Request)
    (hr : Effect.fetch r ∈ (register_click w).trace) (hurl : r.url = "/finish-register") :
    ∃ status body o id c,
      w.fetch (startRegister w) = .response status body ∧
      prepare w.numberOf decodeRegisterOptions body = .ok (o, id) ∧
      Effect.credentialsCreate o ∈ (register_click w).trace ∧
      w.credentialsCreate o = .resolved (some c) ∧
      r = post "/finish-register" (finishRegisterBody id c) := by
  have hne : ¬ (startRegister w).url = "/finish-register" := by simp [startRegister, post]
  rcases register_cases w with ⟨_, h⟩ | ⟨_, _, h⟩ | ⟨_, _, _, _, _, _, h⟩ |
    ⟨_, _, o, _, _, _, _, _, h⟩ | ⟨_, _, o, _, _, _, _, _, h⟩ |
    ⟨status, body, o, id, c, _, hf, hp, hg, _, h⟩ |
    ⟨status, body, o, id, c, _, _, _, hf, hp, hg, _, h⟩
  · simp [h] at hr
  · simp only [h, List.mem_singleton, Effect.fetch.injEq] at hr
    subst hr
    exact absurd hurl hne
  · simp only [h, List.mem_singleton, Effect.fetch.injEq] at hr
    subst hr
    exact absurd hurl hne
  · simp only [h, List.mem_cons, Effect.fetch.injEq, List.mem_singleton, reduceCtorEq,
      List.not_mem_nil, or_false] at hr
    subst hr
    exact absurd hurl hne
  · simp only [h, List.mem_cons, Effect.fetch.injEq, List.mem_singleton, reduceCtorEq,
      List.not_mem_nil, or_false] at hr
    subst hr
    exact absurd hurl hne
  · simp only [h, List.mem_cons, Effect.fetch.injEq, List.mem_singleton, reduceCtorEq,
      List.not_mem_nil, or_false, false_or] at hr
    rcases hr with hr | hr
    · subst hr
      exact absurd hurl hne
    · subst hr
      exact ⟨status, body, o, id, c, hf, hp, by simp [h], hg, rfl⟩
  · simp only [h, List.mem_append, List.mem_cons, Effect.fetch.injEq, List.mem_singleton,
      reduceCtorEq, List.not_mem_nil, or_false, false_or] at hr
    rcases hr with (hr | hr) | hr
    · subst hr
      exact absurd hurl hne
    · subst hr
      exact ⟨status, body, o, id, c, hf, hp, by simp [h], hg, rfl⟩
    · have := authenticate_no_finish_register w 1 _ hr
      simp [Effect.isFetchTo, hurl] at this

/-! ## The claims -/

/-- C10. Round-trip law of the binary codec: for every byte sequence `b`,
the empty one included, decoding the URL-safe unpadded encoding of `b` gives
back `b`, and the encoded text contains no padding character `=`. -/
theorem C10_codec_round_trip (b : List Byte) :
    Base64.toUint8Array (Base64.fromUint8Array b) = some b ∧
      '=' ∉ (Base64.fromUint8Array b).toList := by
  constructor
  · simp only [Base64.toUint8Array, Base64.fromUint8Array, String.toList]
    rw [Base64.lookupAll_b64chr _ (Base64.sextets_lt b)]
    exact Base64.unsextets_sextets b
  · simp only [Base64.fromUint8Array, String.toList, List.mem_map, not_exists, not_and]
    intro n _ hn
    exact Base64.b64chr_ne_pad n hn

/-- C6. No-op on empty identity: when the identity input is the empty
string, `authenticate` and the register click handler have no effect at all
(no network call, no authenticator call, no cookie write, no navigation) and
their promise is fulfilled, not rejected. -/
theorem C6_empty_identity_is_a_no_op (w : World) (t : Nat) :
    (w.name_value t = "" →
      (authenticate w t).trace = [] ∧ (authenticate w t).outcome = .ok ()) ∧
    (w.name_value 0 = "" →
      (register_click w).trace = [] ∧ (register_click w).outcome = .ok ()) := by
  constructor
  · intro h
    simp [authenticate, h, pure]
  · intro h
    simp [register_click, h, pure]

/-- Witness of C6: both handlers on a page whose input is empty. -/
theorem C6_witness :
    ((authenticate (sampleWorld "" "" (.response 200 "token") (.response 200 "")
        (.resolved (some sampleAssertion)) (.resolved (some sampleAttestation))) 0).trace = [] ∧
      (authenticate (sampleWorld "" "" (.response 200 "token") (.response 200 "")
        (.resolved (some sampleAssertion)) (.resolved (some sampleAttestation))) 0).outcome
        = .ok ()) ∧
    ((register_click (sampleWorld "" "" (.response 200 "token") (.response 200 "")
        (.resolved (some sampleAssertion)) (.resolved (some sampleAttestation)))).trace = [] ∧
      (register_click (sampleWorld "" "" (.response 200 "token") (.response 200 "")
        (.resolved (some sampleAssertion)) (.resolved (some sampleAttestation)))).outcome
        = .ok ()) :=
  ⟨(C6_empty_identity_is_a_no_op (sampleWorld "" "" (.response 200 "token") (.response 200 "")
      (.resolved (some sampleAssertion)) (.resolved (some sampleAttestation))) 0).1 rfl,
   (C6_empty_identity_is_a_no_op (sampleWorld "" "" (.response 200 "token") (.response 200 "")
      (.resolved (some sampleAssertion)) (.resolved (some sampleAttestation))) 0).2 rfl⟩

/-- C1. Fail-closed on authenticator rejection: if the
`navigator.credentials.get` call of a run of `authenticate` rejects, the run
has no `/finish-login` request, no cookie write and no navigation; if the `navigator.credentials.create` call of a run of
the register handler rejects, the run has no `/finish-register` request, no
cookie write, no navigation, and nothing of the chained `authenticate` (no
`/start-login` or `/finish-login` request, no `navigator.credentials.get`
call). -/
theorem C1_fail_closed_on_authenticator_rejection (w : World) (t : Nat) :
    ((∀ o, Effect.credentialsGet o ∈ (authenticate w t).trace →
        w.credentialsGet o = .rejected) →
      ∀ e ∈ (authenticate w t).trace,
        e.isFetchTo "/finish-login" = false ∧ e.isCookie = false ∧ e.isLocation = false) ∧
    ((∀ o, Effect.credentialsCreate o ∈ (register_click w).trace →
        w.credentialsCreate o = .rejected) →
      ∀ e ∈ (register_click w).trace,
        e.isFetchTo "/finish-register" = false ∧ e.isCookie = false ∧ e.isLocation = false ∧
        e.isFetchTo "/start-login" = false ∧ e.isFetchTo "/finish-login" = false ∧
        e.isCredentialsGet = false) := by
  constructor
  · intro h
    rcases authenticate_cases w t with ⟨_, hr⟩ | ⟨_, _, hr⟩ | ⟨_, _, _, _, _, _, hr⟩ |
      ⟨_, _, o, _, _, _, _, _, hr⟩ | ⟨_, _, o, _, _, _, _, _, hr⟩ |
      ⟨_, _, o, _, c, _, _, _, hg, _, hr⟩ | ⟨_, _, o, _, c, _, _, _, _, _, hg, _, hr⟩
    · simp [hr]
    · simp [hr, Effect.isFetchTo, Effect.isCookie, Effect.isLocation, startLogin, post]
    · simp [hr, Effect.isFetchTo, Effect.isCookie, Effect.isLocation, startLogin, post]
    · simp [hr, Effect.isFetchTo, Effect.isCookie, Effect.isLocation, startLogin, post]
    · simp [hr, Effect.isFetchTo, Effect.isCookie, Effect.isLocation, startLogin, post]
    · have := h o (by simp [hr])
      rw [hg] at this
      cases this
    · have := h o (by simp [hr])
      rw [hg] at this
      cases this
  · intro h
    rcases register_cases w with ⟨_, hr⟩ | ⟨_, _, hr⟩ | ⟨_, _, _, _, _, _, hr⟩ |
      ⟨_, _, o, _, _, _, _, _, hr⟩ | ⟨_, _, o, _, _, _, _, _, hr⟩ |
      ⟨_, _, o, _, c, _, _, _, hg, _, hr⟩ | ⟨_, _, o, _, c, _, _, _, _, _, hg, _, hr⟩
    · simp [hr]
    · simp [hr, Effect.isFetchTo, Effect.isCookie, Effect.isLocation, Effect.isCredentialsGet,
        startRegister, post]
    · simp [hr, Effect.isFetchTo, Effect.isCookie, Effect.isLocation, Effect.isCredentialsGet,
        startRegister, post]
    · simp [hr, Effect.isFetchTo, Effect.isCookie, Effect.isLocation, Effect.isCredentialsGet,
        startRegister, post]
    · simp [hr, Effect.isFetchTo, Effect.isCookie, Effect.isLocation, Effect.isCredentialsGet,
        startRegister, post]
    · have := h o (by simp [hr])
      rw [hg] at this
      cases this
    · have := h o (by simp [hr])
      rw [hg] at this
      cases this

/-- Witness of C1: an authenticator that is called and rejects, in both
ceremonies. -/
theorem C1_witness :
    ((authenticate (sampleWorld "alice" "alice" (.response 200 "token") (.response 200 "")
        .rejected .rejected) 0).trace
      = [.fetch (post "/start-login" "\x7b\"name\":\"alice\"\x7d"),
         .credentialsGet sampleLoginOptions]) ∧
    ((register_click (sampleWorld "alice" "alice" (.response 200 "token") (.response 200 "")
        .rejected .rejected)).trace
      = [.fetch (post "/start-register" "\x7b\"name\":\"alice\"\x7d"),
         .credentialsCreate sampleRegisterOptions]) ∧
    (∀ e ∈ (authenticate (sampleWorld "alice" "alice" (.response 200 "token") (.response 200 "")
        .rejected .rejected) 0).trace,
      e.isFetchTo "/finish-login" = false ∧ e.isCookie = false ∧ e.isLocation = false) ∧
    (∀ e ∈ (register_click (sampleWorld "alice" "alice" (.response 200 "token")
        (.response 200 "") .rejected .rejected)).trace,
      e.isFetchTo "/finish-register" = false ∧ e.isCookie = false ∧ e.isLocation = false ∧
      e.isFetchTo "/start-login" = false ∧ e.isFetchTo "/finish-login" = false ∧
      e.isCredentialsGet = false) :=
  ⟨rfl, rfl,
    (C1_fail_closed_on_authenticator_rejection (sampleWorld "alice" "alice"
      (.response 200 "token") (.response 200 "") .rejected .rejected) 0).1 (fun _ _ => rfl),
    (C1_fail_closed_on_authenticator_rejection (sampleWorld "alice" "alice"
      (.response 200 "token") (.response 200 "") .rejected .rejected) 0).2 (fun _ _ => rfl)⟩

/-- C2 as stated fails: the `/finish-login` request is answered with status
401 and the body `Unauthorized`, and the run still writes the cookie
`SessionToken=Unauthorized` and navigates to `/`. -/
theorem C2_counterexample :
    (sampleWorld "alice" "alice" (.response 401 "Unauthorized") .networkError
        (.resolved (some sampleAssertion)) .rejected).fetch sampleFinishLogin
      = .response 401 "Unauthorized" ∧
    (authenticate (sampleWorld "alice" "alice" (.response 401 "Unauthorized") .networkError
        (.resolved (some sampleAssertion)) .rejected) 0).trace
      = [.fetch (post "/start-login" "\x7b\"name\":\"alice\"\x7d"),
         .credentialsGet sampleLoginOptions,
         .fetch sampleFinishLogin,
         .cookie "SessionToken=Unauthorized",
         .location "/"] :=
  ⟨rfl, rfl⟩

/-- C2, amended. For every run of `authenticate` in which the `/finish-login`
request fails (the `fetch` promise rejects), no session cookie is written and
the page location is left unchanged. The status of an answer is not
inspected. -/
theorem C2_no_session_when_finish_login_fails (w : World) (t : Nat)
    (h : ∀ r, Effect.fetch r ∈ (authenticate w t).trace → r.url = "/finish-login" →
      w.fetch r = .networkError) :
    ∀ e ∈ (authenticate w t).trace, e.isCookie = false ∧ e.isLocation = false := by
  rcases authenticate_cases w t with ⟨_, hr⟩ | ⟨_, _, hr⟩ | ⟨_, _, _, _, _, _, hr⟩ |
    ⟨_, _, o, _, _, _, _, _, hr⟩ | ⟨_, _, o, _, _, _, _, _, hr⟩ |
    ⟨_, _, o, _, c, _, _, _, hg, _, hr⟩ | ⟨_, _, o, id, c, _, _, _, _, _, hg, hfin, hr⟩
  · simp [hr]
  · simp [hr, Effect.isCookie, Effect.isLocation]
  · simp [hr, Effect.isCookie, Effect.isLocation]
  · simp [hr, Effect.isCookie, Effect.isLocation]
  · simp [hr, Effect.isCookie, Effect.isLocation]
  · simp [hr, Effect.isCookie, Effect.isLocation]
  · have := h (post "/finish-login" (finishLoginBody id c)) (by simp [hr]) rfl
    rw [hfin] at this
    cases this

/-- Witness of the amended C2: the `/finish-login` request is sent and
fails. -/
theorem C2_witness :
    (authenticate (sampleWorld "alice" "alice" .networkError .networkError
        (.resolved (some sampleAssertion)) .rejected) 0).trace
      = [.fetch (post "/start-login" "\x7b\"name\":\"alice\"\x7d"),
         .credentialsGet sampleLoginOptions,
         .fetch sampleFinishLogin] ∧
    ∀ e ∈ (authenticate (sampleWorld "alice" "alice" .networkError .networkError
        (.resolved (some sampleAssertion)) .rejected) 0).trace,
      e.isCookie = false ∧ e.isLocation = false :=
  ⟨rfl, C2_no_session_when_finish_login_fails _ 0 (by
    intro r _ hurl
    have h1 : ¬ r.url = "/start-login" := by rw [hurl]; decide
    have h2 : ¬ r.url = "/start-register" := by rw [hurl]; decide
    simp [sampleWorld, h1, h2, hurl])⟩

/-- C8. Session install on success: in every run of `authenticate` whose
`/finish-login` request is answered with the body text `token`, the run ends
with the cookie write `"SessionToken=" + token` followed by the navigation
to `/`, and nothing before them writes a cookie or navigates: the cookie
store is written exactly once, with exactly that string, before the single
navigation. -/
theorem C8_session_install_on_success (w : World) (t : Nat) (r : Request) (status : Nat)
    (token : String) (hr : Effect.fetch r ∈ (authenticate w t).trace)
    (hurl : r.url = "/finish-login") (hans : w.fetch r = .response status token) :
    ∃ before, (authenticate w t).trace
        = before ++ [.cookie ("SessionToken=" ++ token), .location "/"] ∧
      ∀ e ∈ before, e.isCookie = false ∧ e.isLocation = false := by
  have hne : ¬ (startLogin w t).url = "/finish-login" := by simp [startLogin, post]
  rcases authenticate_cases w t with ⟨_, h⟩ | ⟨_, _, h⟩ | ⟨_, _, _, _, _, _, h⟩ |
    ⟨_, _, o, _, _, _, _, _, h⟩ | ⟨_, _, o, _, _, _, _, _, h⟩ |
    ⟨_, _, o, id, c, _, _, _, hg, hfin, h⟩ | ⟨_, _, o, id, c, _, token1, _, _, _, hg, hfin, h⟩
  · simp [h] at hr
  · simp only [h, List.mem_singleton, Effect.fetch.injEq] at hr
    subst hr
    exact absurd hurl hne
  · simp only [h, List.mem_singleton, Effect.fetch.injEq] at hr
    subst hr
    exact absurd hurl hne
  · simp only [h, List.mem_cons, Effect.fetch.injEq, List.mem_singleton, reduceCtorEq,
      List.not_mem_nil, or_false] at hr
    subst hr
    exact absurd hurl hne
  · simp only [h, List.mem_cons, Effect.fetch.injEq, List.mem_singleton, reduceCtorEq,
      List.not_mem_nil, or_false] at hr
    subst hr
    exact absurd hurl hne
  · simp only [h, List.mem_cons, Effect.fetch.injEq, List.mem_singleton, reduceCtorEq,
      List.not_mem_nil, or_false, false_or] at hr
    rcases hr with hr | hr
    · subst hr
      exact absurd hurl hne
    · subst hr
      rw [hfin] at hans
      cases hans
  · simp only [h, List.mem_cons, Effect.fetch.injEq, List.mem_singleton, reduceCtorEq,
      List.not_mem_nil, or_false, false_or] at hr
    rcases hr with hr | hr
    · subst hr
      exact absurd hurl hne
    · subst hr
      rw [hfin] at hans
      cases hans
      refine ⟨[.fetch (startLogin w t), .credentialsGet o,
        .fetch (post "/finish-login" (finishLoginBody id c))], by simp [h], ?_⟩
      simp [Effect.isCookie, Effect.isLocation]

/-- Witness of C8: a `/finish-login` request answered with the token
`s3cr3t`. -/
theorem C8_witness :
    ∃ before, (authenticate (sampleWorld "alice" "alice" (.response 200 "s3cr3t") .networkError
        (.resolved (some sampleAssertion)) .rejected) 0).trace
        = before ++ [.cookie ("SessionToken=" ++ "s3cr3t"), .location "/"] ∧
      ∀ e ∈ before, e.isCookie = false ∧ e.isLocation = false :=
  C8_session_install_on_success (sampleWorld "alice" "alice" (.response 200 "s3cr3t")
    .networkError (.resolved (some sampleAssertion)) .rejected) 0 sampleFinishLogin 200 "s3cr3t"
    (by
      have e : (authenticate (sampleWorld "alice" "alice" (.response 200 "s3cr3t") .networkError
          (.resolved (some sampleAssertion)) .rejected) 0).trace
        = [.fetch (post "/start-login" "\x7b\"name\":\"alice\"\x7d"),
           .credentialsGet sampleLoginOptions,
           .fetch sampleFinishLogin,
           .cookie "SessionToken=s3cr3t",
           .location "/"] := rfl
      rw [e]
      simp)
    rfl rfl

/-- C9 as stated fails: the `/finish-register` request is answered with
status 500 and the handler still starts the chained authentication: a
`/start-login` request follows. -/
theorem C9_counterexample :
    (sampleWorld "alice" "alice" .networkError (.response 500 "Internal Server Error")
        .rejected (.resolved (some sampleAttestation))).fetch sampleFinishRegister
      = .response 500 "Internal Server Error" ∧
    (register_click (sampleWorld "alice" "alice" .networkError
        (.response 500 "Internal Server Error") .rejected
        (.resolved (some sampleAttestation)))).trace
      = [.fetch (post "/start-register" "\x7b\"name\":\"alice\"\x7d"),
         .credentialsCreate sampleRegisterOptions,
         .fetch sampleFinishRegister,
         .fetch (post "/start-login" "\x7b\"name\":\"alice\"\x7d"),
         .credentialsGet sampleLoginOptions] :=
  ⟨rfl, rfl⟩

/-- C9, amended. An exchange that fails by network failure (the `fetch`
promise rejects) aborts the ceremony: when the `/start-login` request fails,
the run of `authenticate` consists of that request alone; when the
`/start-register` request fails, the run of the register handler consists
of that request alone; when the `/finish-register` request fails, the run
has no `/start-login` request and no `navigator.credentials.get` call, no
cookie write and no navigation. The status of an answer is not
inspected. -/
theorem C9_network_failure_aborts (w : World) (t : Nat) :
    (w.name_value t ≠ "" → w.fetch (startLogin w t) = .networkError →
      (authenticate w t).trace = [.fetch (startLogin w t)] ∧
      (authenticate w t).outcome = .error .networkError) ∧
    (w.name_value 0 ≠ "" → w.fetch (startRegister w) = .networkError →
      (register_click w).trace = [.fetch (startRegister w)] ∧
      (register_click w).outcome = .error .networkError) ∧
    ((∀ r, Effect.fetch r ∈ (register_click w).trace → r.url = "/finish-register" →
        w.fetch r = .networkError) →
      ∀ e ∈ (register_click w).trace,
        e.isFetchTo "/start-login" = false ∧ e.isCredentialsGet = false ∧
        e.isCookie = false ∧ e.isLocation = false) := by
  refine ⟨?_, ?_, ?_⟩
  · intro hn hf
    rcases authenticate_cases w t with ⟨h0, _⟩ | ⟨_, _, h⟩ | ⟨_, _, _, _, h1, _, _⟩ |
      ⟨_, _, _, _, _, h1, _⟩ | ⟨_, _, _, _, _, h1, _⟩ |
      ⟨_, _, _, _, _, _, h1, _⟩ | ⟨_, _, _, _, _, _, _, _, h1, _⟩
    · exact absurd h0 hn
    · simp [h]
    all_goals (rw [hf] at h1; cases h1)
  · intro hn hf
    rcases register_cases w with ⟨h0, _⟩ | ⟨_, _, h⟩ | ⟨_, _, _, _, h1, _, _⟩ |
      ⟨_, _, _, _, _, h1, _⟩ | ⟨_, _, _, _, _, h1, _⟩ |
      ⟨_, _, _, _, _, _, h1, _⟩ | ⟨_, _, _, _, _, _, _, _, h1, _⟩
    · exact absurd h0 hn
    · simp [h]
    all_goals (rw [hf] at h1; cases h1)
  · intro h
    rcases register_cases w with ⟨_, hr⟩ | ⟨_, _, hr⟩ | ⟨_, _, _, _, _, _, hr⟩ |
      ⟨_, _, o, _, _, _, _, _, hr⟩ | ⟨_, _, o, _, _, _, _, _, hr⟩ |
      ⟨_, _, o, _, c, _, _, _, hg, _, hr⟩ | ⟨_, _, o, id, c, _, _, _, _, _, hg, hfin, hr⟩
    · simp [hr]
    · simp [hr, Effect.isFetchTo, Effect.isCookie, Effect.isLocation, Effect.isCredentialsGet,
        startRegister, post]
    · simp [hr, Effect.isFetchTo, Effect.isCookie, Effect.isLocation, Effect.isCredentialsGet,
        startRegister, post]
    · simp [hr, Effect.isFetchTo, Effect.isCookie, Effect.isLocation, Effect.isCredentialsGet,
        startRegister, post]
    · simp [hr, Effect.isFetchTo, Effect.isCookie, Effect.isLocation, Effect.isCredentialsGet,
        startRegister, post]
    · simp [hr, Effect.isFetchTo, Effect.isCookie, Effect.isLocation, Effect.isCredentialsGet,
        startRegister, post]
    · have := h (post "/finish-register" (finishRegisterBody id c)) (by simp [hr]) rfl
      rw [hfin] at this
      cases this

/-- Witness of the amended C9: a page without network for the two start
requests, and a `/finish-register` request that is sent and fails. -/
theorem C9_witness :
    ((authenticate (offlineWorld "alice") 0).trace = [.fetch (startLogin (offlineWorld "alice") 0)] ∧
      (authenticate (offlineWorld "alice") 0).outcome = .error .networkError) ∧
    ((register_click (offlineWorld "alice")).trace = [.fetch (startRegister (offlineWorld "alice"))] ∧
      (register_click (offlineWorld "alice")).outcome = .error .networkError) ∧
    ((register_click (sampleWorld "alice" "alice" .networkError .networkError .rejected
        (.resolved (some sampleAttestation)))).trace
      = [.fetch (post "/start-register" "\x7b\"name\":\"alice\"\x7d"),
         .credentialsCreate sampleRegisterOptions,
         .fetch sampleFinishRegister]) ∧
    (∀ e ∈ (register_click (sampleWorld "alice" "alice" .networkError .networkError .rejected
        (.resolved (some sampleAttestation)))).trace,
      e.isFetchTo "/start-login" = false ∧ e.isCredentialsGet = false ∧
      e.isCookie = false ∧ e.isLocation = false) :=
  ⟨(C9_network_failure_aborts (offlineWorld "alice") 0).1 (by decide) rfl,
   (C9_network_failure_aborts (offlineWorld "alice") 0).2.1 (by decide) rfl,
   rfl,
   (C9_network_failure_aborts (sampleWorld "alice" "alice" .networkError .networkError .rejected
      (.resolved (some sampleAttestation))) 0).2.2 (by
    intro r _ hurl
    have h1 : ¬ r.url = "/start-login" := by rw [hurl]; decide
    have h2 : ¬ r.url = "/start-register" := by rw [hurl]; decide
    have h3 : ¬ r.url = "/finish-login" := by rw [hurl]; decide
    simp [sampleWorld, h1, h2, h3])⟩

/-- C7 as stated fails: the input holds `alice` when the register handler
starts and `bob` once the registration is acknowledged; the `/start-register`
request names `alice` and the `/start-login` request of the chained
authentication names `bob`. -/
theorem C7_counterexample :
    (sampleWorld "alice" "bob" .networkError (.response 200 "") .rejected
        (.resolved (some sampleAttestation))).fetch sampleFinishRegister = .response 200 "" ∧
    (register_click (sampleWorld "alice" "bob" .networkError (.response 200 "") .rejected
        (.resolved (some sampleAttestation)))).trace
      = [.fetch (post "/start-register" "\x7b\"name\":\"alice\"\x7d"),
         .credentialsCreate sampleRegisterOptions,
         .fetch sampleFinishRegister,
         .fetch (post "/start-login" "\x7b\"name\":\"bob\"\x7d"),
         .credentialsGet sampleLoginOptions] :=
  ⟨rfl, rfl⟩

/-- C7, amended. For every run of the register handler in which the
`/finish-register` request is answered, `authenticate` runs immediately
afterwards: the run is the `/start-register` request naming the identity the
input held when the handler started, the `navigator.credentials.create`
call, the `/finish-register` request, and then the run of `authenticate`.
That run reads the input again: if the input is not empty it starts with the
`/start-login` request naming what the input holds by then, which is the
identity of the `/start-register` request if the input still holds it; if
the input is empty by then there is no `/start-login` request. -/
theorem C7_registration_chains_into_login (w : World) (r : Request) (status : Nat)
    (body : String) (hr : Effect.fetch r ∈ (register_click w).trace)
    (hurl : r.url = "/finish-register") (hans : w.fetch r = .response status body) :
    (∃ o, (register_click w).trace
        = [.fetch (post "/start-register"
              (JSON.stringify (.obj [("name", .str (w.name_value 0))]))),
            .credentialsCreate o, .fetch r] ++ (authenticate w 1).trace) ∧
    (w.name_value 1 ≠ "" → ∃ rest, (authenticate w 1).trace
        = .fetch (post "/start-login"
            (JSON.stringify (.obj [("name", .str (w.name_value 1))]))) :: rest) ∧
    (w.name_value 1 = w.name_value 0 → ∃ rest, (authenticate w 1).trace
        = .fetch (post "/start-login"
            (JSON.stringify (.obj [("name", .str (w.name_value 0))]))) :: rest) ∧
    (w.name_value 1 = "" → (authenticate w 1).trace = []) := by
  have hne : ¬ (startRegister w).url = "/finish-register" := by simp [startRegister, post]
  have hstart : ∀ n, w.name_value n ≠ "" → ∃ rest, (authenticate w n).trace
      = .fetch (post "/start-login"
          (JSON.stringify (.obj [("name", .str (w.name_value n))]))) :: rest := by
    intro n hn
    rcases authenticate_cases w n with ⟨h0, _⟩ | ⟨_, _, h⟩ | ⟨_, _, _, _, _, _, h⟩ |
      ⟨_, _, _, _, _, _, _, _, h⟩ | ⟨_, _, _, _, _, _, _, _, h⟩ |
      ⟨_, _, _, _, _, _, _, _, _, _, h⟩ | ⟨_, _, _, _, _, _, _, _, _, _, _, _, h⟩
    · exact absurd h0 hn
    all_goals exact ⟨_, by rw [h]; rfl⟩
  have hchain : ∃ o, (register_click w).trace
        = [.fetch (post "/start-register"
              (JSON.stringify (.obj [("name", .str (w.name_value 0))]))),
            .credentialsCreate o, .fetch r] ++ (authenticate w 1).trace ∧ w.name_value 0 ≠ "" := by
    rcases register_cases w with ⟨_, h⟩ | ⟨_, _, h⟩ | ⟨_, _, _, _, _, _, h⟩ |
      ⟨_, _, o, _, _, _, _, _, h⟩ | ⟨_, _, o, _, _, _, _, _, h⟩ |
      ⟨_, _, o, id, c, _, _, _, hg, hfin, h⟩ | ⟨_, _, o, id, c, _, _, hn, _, _, hg, hfin, h⟩
    · simp [h] at hr
    · simp only [h, List.mem_singleton, Effect.fetch.injEq] at hr
      subst hr
      exact absurd hurl hne
    · simp only [h, List.mem_singleton, Effect.fetch.injEq] at hr
      subst hr
      exact absurd hurl hne
    · simp only [h, List.mem_cons, Effect.fetch.injEq, List.mem_singleton, reduceCtorEq,
        List.not_mem_nil, or_false] at hr
      subst hr
      exact absurd hurl hne
    · simp only [h, List.mem_cons, Effect.fetch.injEq, List.mem_singleton, reduceCtorEq,
        List.not_mem_nil, or_false] at hr
      subst hr
      exact absurd hurl hne
    · simp only [h, List.mem_cons, Effect.fetch.injEq, List.mem_singleton, reduceCtorEq,
        List.not_mem_nil, or_false, false_or] at hr
      rcases hr with hr | hr
      · subst hr
        exact absurd hurl hne
      · subst hr
        rw [hfin] at hans
        cases hans
    · refine ⟨o, ?_, hn⟩
      have hmem : ∀ e ∈ (authenticate w 1).trace, e.isFetchTo "/finish-register" = false := by
        rcases authenticate_cases w 1 with ⟨_, h'⟩ | ⟨_, _, h'⟩ | ⟨_, _, _, _, _, _, h'⟩ |
          ⟨_, _, _, _, _, _, _, _, h'⟩ | ⟨_, _, _, _, _, _, _, _, h'⟩ |
          ⟨_, _, _, _, _, _, _, _, _, _, h'⟩ | ⟨_, _, _, _, _, _, _, _, _, _, _, _, h'⟩ <;>
          simp [h', Effect.isFetchTo, startLogin, post]
      simp only [h, List.mem_append, List.mem_cons, Effect.fetch.injEq, List.mem_singleton,
        reduceCtorEq, List.not_mem_nil, or_false, false_or] at hr
      rcases hr with (hr | hr) | hr
      · subst hr
        exact absurd hurl hne
      · subst hr
        rw [h]
        rfl
      · have := hmem _ hr
        simp [Effect.isFetchTo, hurl] at this
  obtain ⟨o, ho, hn0⟩ := hchain
  refine ⟨⟨o, ho⟩, hstart 1, ?_, ?_⟩
  · intro he
    have := hstart 1 (by rw [he]; exact hn0)
    rw [he] at this
    exact this
  · intro he
    simp [authenticate, he, pure]

/-- Witness of the amended C7: the registration is acknowledged and the
input still holds `alice`. -/
theorem C7_witness :
    (∃ o, (register_click (sampleWorld "alice" "alice" .networkError (.response 200 "")
        .rejected (.resolved (some sampleAttestation)))).trace
        = [.fetch (post "/start-register" (JSON.stringify (.obj [("name", .str "alice")]))),
            .credentialsCreate o, .fetch sampleFinishRegister]
          ++ (authenticate (sampleWorld "alice" "alice" .networkError (.response 200 "")
            .rejected (.resolved (some sampleAttestation))) 1).trace) ∧
    (∃ rest, (authenticate (sampleWorld "alice" "alice" .networkError (.response 200 "")
        .rejected (.resolved (some sampleAttestation))) 1).trace
        = .fetch (post "/start-login" (JSON.stringify (.obj [("name", .str "alice")]))) :: rest) :=
  have h := C7_registration_chains_into_login (sampleWorld "alice" "alice" .networkError
    (.response 200 "") .rejected (.resolved (some sampleAttestation))) sampleFinishRegister 200 ""
    (by
      have e : (register_click (sampleWorld "alice" "alice" .networkError (.response 200 "")
          .rejected (.resolved (some sampleAttestation)))).trace
        = [.fetch (post "/start-register" "\x7b\"name\":\"alice\"\x7d"),
           .credentialsCreate sampleRegisterOptions,
           .fetch sampleFinishRegister,
           .fetch (post "/start-login" "\x7b\"name\":\"alice\"\x7d"),
           .credentialsGet sampleLoginOptions] := rfl
      rw [e]
      simp)
    rfl rfl
  ⟨h.1, h.2.2.1 rfl⟩

/-- C4. Decode exactly once before the authenticator call: the options a
run of `authenticate` passes to `navigator.credentials.get` are the options
of the `/start-login` answer with `publicKey.challenge` replaced by its
decoding and the `id` of every entry of `publicKey.allowCredentials`
replaced by its decoding, every other property unchanged; the options a run
of the register handler passes to `navigator.credentials.create` are the
options of the `/start-register` answer with `publicKey.challenge` and
`publicKey.user.id` replaced by their decodings, every other property
unchanged. -/
theorem C4_decode_once_before_authenticator_call (w : World) (t : Nat) (o : JSVal) :
    (Effect.credentialsGet o ∈ (authenticate w t).trace →
      ∃ status body value options id,
        w.fetch (startLogin w t) = .response status body ∧
        JSON.parse w.numberOf body = some value ∧ destructure2 value = .ok (options, id) ∧
        LoginDecoded options o) ∧
    (Effect.credentialsCreate o ∈ (register_click w).trace →
      ∃ status body value options id,
        w.fetch (startRegister w) = .response status body ∧
        JSON.parse w.numberOf body = some value ∧ destructure2 value = .ok (options, id) ∧
        RegisterDecoded options o) := by
  constructor
  · intro hmem
    rcases authenticate_cases w t with ⟨_, h⟩ | ⟨_, _, h⟩ | ⟨_, _, _, _, _, _, h⟩ |
      ⟨status, body, o1, id, _, hf, hp, _, h⟩ | ⟨status, body, o1, id, _, hf, hp, _, h⟩ |
      ⟨status, body, o1, id, _, _, hf, hp, _, _, h⟩ |
      ⟨status, body, o1, id, _, _, _, _, hf, hp, _, _, h⟩
    · simp [h] at hmem
    · simp [h] at hmem
    · simp [h] at hmem
    all_goals
      simp only [h, List.mem_cons, reduceCtorEq, Effect.credentialsGet.injEq, List.mem_singleton,
        List.not_mem_nil, or_false, false_or] at hmem
      subst hmem
      obtain ⟨value, options, hv, hd, ho⟩ := prepare_ok _ _ _ _ _ hp
      exact ⟨status, body, value, options, id, hf, hv, hd, decodeLoginOptions_ok _ _ ho⟩
  · intro hmem
    rcases register_cases w with ⟨_, h⟩ | ⟨_, _, h⟩ | ⟨_, _, _, _, _, _, h⟩ |
      ⟨status, body, o1, id, _, hf, hp, _, h⟩ | ⟨status, body, o1, id, _, hf, hp, _, h⟩ |
      ⟨status, body, o1, id, _, _, hf, hp, _, _, h⟩ |
      ⟨status, body, o1, id, _, _, _, _, hf, hp, _, _, h⟩
    · simp [h] at hmem
    · simp [h] at hmem
    · simp [h] at hmem
    · simp only [h, List.mem_cons, reduceCtorEq, Effect.credentialsCreate.injEq,
        List.mem_singleton, List.not_mem_nil, or_false, false_or] at hmem
      subst hmem
      obtain ⟨value, options, hv, hd, ho⟩ := prepare_ok _ _ _ _ _ hp
      exact ⟨status, body, value, options, id, hf, hv, hd, decodeRegisterOptions_ok _ _ ho⟩
    · simp only [h, List.mem_cons, reduceCtorEq, Effect.credentialsCreate.injEq,
        List.mem_singleton, List.not_mem_nil, or_false, false_or] at hmem
      subst hmem
      obtain ⟨value, options, hv, hd, ho⟩ := prepare_ok _ _ _ _ _ hp
      exact ⟨status, body, value, options, id, hf, hv, hd, decodeRegisterOptions_ok _ _ ho⟩
    · simp only [h, List.mem_cons, reduceCtorEq, Effect.credentialsCreate.injEq,
        List.mem_singleton, List.not_mem_nil, or_false, false_or] at hmem
      subst hmem
      obtain ⟨value, options, hv, hd, ho⟩ := prepare_ok _ _ _ _ _ hp
      exact ⟨status, body, value, options, id, hf, hv, hd, decodeRegisterOptions_ok _ _ ho⟩
    · have hno : ∀ e ∈ (authenticate w 1).trace, ∀ x, e ≠ Effect.credentialsCreate x := by
        rcases authenticate_cases w 1 with ⟨_, h'⟩ | ⟨_, _, h'⟩ | ⟨_, _, _, _, _, _, h'⟩ |
          ⟨_, _, _, _, _, _, _, _, h'⟩ | ⟨_, _, _, _, _, _, _, _, h'⟩ |
          ⟨_, _, _, _, _, _, _, _, _, _, h'⟩ | ⟨_, _, _, _, _, _, _, _, _, _, _, _, h'⟩ <;>
          simp [h']
      simp only [h, List.mem_append, List.mem_cons, reduceCtorEq, Effect.credentialsCreate.injEq,
        List.mem_singleton, List.not_mem_nil, or_false, false_or] at hmem
      rcases hmem with hmem | hmem
      · subst hmem
        obtain ⟨value, options, hv, hd, ho⟩ := prepare_ok _ _ _ _ _ hp
        exact ⟨status, body, value, options, id, hf, hv, hd, decodeRegisterOptions_ok _ _ ho⟩
      · exact absurd rfl (hno _ hmem o)

/-- Witness of C4: the options passed in `sampleWorld`, where the challenge
`AAA` has become the bytes `0, 0` and the ids `AQ` the byte `1`. -/
theorem C4_witness :
    (∃ status body value options id,
        (sampleWorld "alice" "alice" .networkError .networkError .rejected .rejected).fetch
          (startLogin (sampleWorld "alice" "alice" .networkError .networkError .rejected
            .rejected) 0) = .response status body ∧
        JSON.parse sampleNumberOf body = some value ∧ destructure2 value = .ok (options, id) ∧
        LoginDecoded options sampleLoginOptions) ∧
    (∃ status body value options id,
        (sampleWorld "alice" "alice" .networkError .networkError .rejected .rejected).fetch
          (startRegister (sampleWorld "alice" "alice" .networkError .networkError .rejected
            .rejected)) = .response status body ∧
        JSON.parse sampleNumberOf body = some value ∧ destructure2 value = .ok (options, id) ∧
        RegisterDecoded options sampleRegisterOptions) :=
  ⟨(C4_decode_once_before_authenticator_call (sampleWorld "alice" "alice" .networkError
      .networkError .rejected .rejected) 0 sampleLoginOptions).1 (by
        have e : (authenticate (sampleWorld "alice" "alice" .networkError .networkError
            .rejected .rejected) 0).trace
          = [.fetch (post "/start-login" "\x7b\"name\":\"alice\"\x7d"),
             .credentialsGet sampleLoginOptions] := rfl
        rw [e]
        simp),
   (C4_decode_once_before_authenticator_call (sampleWorld "alice" "alice" .networkError
      .networkError .rejected .rejected) 0 sampleRegisterOptions).2 (by
        have e : (register_click (sampleWorld "alice" "alice" .networkError .networkError
            .rejected .rejected)).trace
          = [.fetch (post "/start-register" "\x7b\"name\":\"alice\"\x7d"),
             .credentialsCreate sampleRegisterOptions] := rfl
        rw [e]
        simp)⟩

/-- C5. Outgoing binary fields are re-encoded: the body of the
`/finish-login` request of a run of `authenticate` is the JSON text of
`[id, {id, rawId, response: {authenticatorData, clientDataJSON, signature,
userHandle}, type}]` and the body of the `/finish-register` request of a run
of the register handler is the JSON text of `[id, {id, rawId, response:
{attestationObject, clientDataJSON}, type}]`, where the first `id` is the one
of the start answer, the credential is the one the authenticator call of the
run resolved with, its `id` and `type` are passed through and each binary
field is the URL-safe unpadded encoding of its bytes (of no bytes for a
`null` user handle). -/
theorem C5_outgoing_binary_fields_are_encoded (w : World) (t : Nat) (r : Request) :
    (Effect.fetch r ∈ (authenticate w t).trace → r.url = "/finish-login" →
      ∃ status body value options id o c,
        w.fetch (startLogin w t) = .response status body ∧
        JSON.parse w.numberOf body = some value ∧ destructure2 value = .ok (options, id) ∧
        Effect.credentialsGet o ∈ (authenticate w t).trace ∧
        w.credentialsGet o = .resolved (some c) ∧
        r.body = JSON.stringify (.arr [id, .obj [
          ("id", .str c.id),
          ("rawId", .str (Base64.fromUint8Array c.rawId)),
          ("response", .obj [
            ("authenticatorData", .str (Base64.fromUint8Array c.authenticatorData)),
            ("clientDataJSON", .str (Base64.fromUint8Array c.clientDataJSON)),
            ("signature", .str (Base64.fromUint8Array c.signature)),
            ("userHandle", .str (Base64.fromUint8Array (c.userHandle.getD [])))]),
          ("type", .str c.type)]])) ∧
    (Effect.fetch r ∈ (register_click w).trace → r.url = "/finish-register" →
      ∃ status body value options id o c,
        w.fetch (startRegister w) = .response status body ∧
        JSON.parse w.numberOf body = some value ∧ destructure2 value = .ok (options, id) ∧
        Effect.credentialsCreate o ∈ (register_click w).trace ∧
        w.credentialsCreate o = .resolved (some c) ∧
        r.body = JSON.stringify (.arr [id, .obj [
          ("id", .str c.id),
          ("rawId", .str (Base64.fromUint8Array c.rawId)),
          ("response", .obj [
            ("attestationObject", .str (Base64.fromUint8Array c.attestationObject)),
            ("clientDataJSON", .str (Base64.fromUint8Array c.clientDataJSON))]),
          ("type", .str c.type)]])) := by
  constructor
  · intro hr hurl
    obtain ⟨status, body, o, id, c, hf, hp, ho, hg, rfl⟩ := finish_login_request w t r hr hurl
    obtain ⟨value, options, hv, hd, _⟩ := prepare_ok _ _ _ _ _ hp
    refine ⟨status, body, value, options, id, o, c, hf, hv, hd, ho, hg, ?_⟩
    cases hc : c.userHandle <;> simp [post, finishLoginBody, newUint8Array, hc]
  · intro hr hurl
    obtain ⟨status, body, o, id, c, hf, hp, ho, hg, rfl⟩ := finish_register_request w r hr hurl
    obtain ⟨value, options, hv, hd, _⟩ := prepare_ok _ _ _ _ _ hp
    refine ⟨status, body, value, options, id, o, c, hf, hv, hd, ho, hg, ?_⟩
    simp [post, finishRegisterBody, newUint8Array]

/-- Witness of C5: the two finish requests of `sampleWorld`, the signature
bytes `251, 255` going out as `-_8` and the `null` user handle as the empty
text. -/
theorem C5_witness :
    (∃ status body value options id o c,
        (sampleWorld "alice" "alice" .networkError .networkError
          (.resolved (some sampleAssertion)) .rejected).fetch
          (startLogin (sampleWorld "alice" "alice" .networkError .networkError
            (.resolved (some sampleAssertion)) .rejected) 0) = .response status body ∧
        JSON.parse sampleNumberOf body = some value ∧ destructure2 value = .ok (options, id) ∧
        Effect.credentialsGet o ∈ (authenticate (sampleWorld "alice" "alice" .networkError
          .networkError (.resolved (some sampleAssertion)) .rejected) 0).trace ∧
        (sampleWorld "alice" "alice" .networkError .networkError
          (.resolved (some sampleAssertion)) .rejected).credentialsGet o = .resolved (some c) ∧
        sampleFinishLogin.body = JSON.stringify (.arr [id, .obj [
          ("id", .str c.id),
          ("rawId", .str (Base64.fromUint8Array c.rawId)),
          ("response", .obj [
            ("authenticatorData", .str (Base64.fromUint8Array c.authenticatorData)),
            ("clientDataJSON", .str (Base64.fromUint8Array c.clientDataJSON)),
            ("signature", .str (Base64.fromUint8Array c.signature)),
            ("userHandle", .str (Base64.fromUint8Array (c.userHandle.getD [])))]),
          ("type", .str c.type)]])) ∧
    (∃ status body value options id o c,
        (sampleWorld "alice" "alice" .networkError .networkError .rejected
          (.resolved (some sampleAttestation))).fetch
          (startRegister (sampleWorld "alice" "alice" .networkError .networkError .rejected
            (.resolved (some sampleAttestation)))) = .response status body ∧
        JSON.parse sampleNumberOf body = some value ∧ destructure2 value = .ok (options, id) ∧
        Effect.credentialsCreate o ∈ (register_click (sampleWorld "alice" "alice" .networkError
          .networkError .rejected (.resolved (some sampleAttestation)))).trace ∧
        (sampleWorld "alice" "alice" .networkError .networkError .rejected
          (.resolved (some sampleAttestation))).credentialsCreate o = .resolved (some c) ∧
        sampleFinishRegister.body = JSON.stringify (.arr [id, .obj [
          ("id", .str c.id),
          ("rawId", .str (Base64.fromUint8Array c.rawId)),
          ("response", .obj [
            ("attestationObject", .str (Base64.fromUint8Array c.attestationObject)),
            ("clientDataJSON", .str (Base64.fromUint8Array c.clientDataJSON))]),
          ("type", .str c.type)]])) :=
  ⟨(C5_outgoing_binary_fields_are_encoded (sampleWorld "alice" "alice" .networkError
      .networkError (.resolved (some sampleAssertion)) .rejected) 0 sampleFinishLogin).1 (by
        have e : (authenticate (sampleWorld "alice" "alice" .networkError .networkError
            (.resolved (some sampleAssertion)) .rejected) 0).trace
          = [.fetch (post "/start-login" "\x7b\"name\":\"alice\"\x7d"),
             .credentialsGet sampleLoginOptions,
             .fetch sampleFinishLogin] := rfl
        rw [e]
        simp) rfl,
   (C5_outgoing_binary_fields_are_encoded (sampleWorld "alice" "alice" .networkError
      .networkError .rejected (.resolved (some sampleAttestation))) 0 sampleFinishRegister).2 (by
        have e : (register_click (sampleWorld "alice" "alice" .networkError .networkError
            .rejected (.resolved (some sampleAttestation)))).trace
          = [.fetch (post "/start-register" "\x7b\"name\":\"alice\"\x7d"),
             .credentialsCreate sampleRegisterOptions,
             .fetch sampleFinishRegister] := rfl
        rw [e]
        simp) rfl⟩

set_option maxRecDepth 20000 in
/-- C3 as stated fails: the `/start-login` answer carries the ceremony id
`9007199254740993`, and the `/finish-login` request carries
`9007199254740992` as first element of its body, which parses back to the
number 9007199254740992. `JSON.parse` reads the id as the nearest Number and
`JSON.stringify` writes that Number. -/
theorem C3_counterexample :
    bigIdWorld.fetch (startLogin bigIdWorld 0)
      = .response 200
          "[\x7b\"publicKey\":\x7b\"challenge\":\"AAA\",\"allowCredentials\":[]\x7d\x7d,9007199254740993]" ∧
    (authenticate bigIdWorld 0).trace
      = [.fetch (post "/start-login" "\x7b\"name\":\"alice\"\x7d"),
         .credentialsGet (.obj [("publicKey", .obj [("challenge", .u8a [0, 0]),
           ("allowCredentials", .arr [])])]),
         .fetch (post "/finish-login"
           "[9007199254740992,\x7b\"id\":\"cred1\",\"rawId\":\"AQ\",\"response\":\x7b\"authenticatorData\":\"Ag\",\"clientDataJSON\":\"Aw\",\"signature\":\"-_8\",\"userHandle\":\"\"\x7d,\"type\":\"public-key\"\x7d]")] ∧
    JSON.parse bigIdWorld.numberOf bigIdFinishLogin.body
      = some (.arr [.num (.int 9007199254740992), .obj [
          ("id", .str "cred1"),
          ("rawId", .str "AQ"),
          ("response", .obj [
            ("authenticatorData", .str "Ag"),
            ("clientDataJSON", .str "Aw"),
            ("signature", .str "-_8"),
            ("userHandle", .str "")]),
          ("type", .str "public-key")]]) :=
  ⟨rfl, rfl, rfl⟩

/-- C3, amended. Ceremony correlation preserved for the ids that
`JSON.parse` and `JSON.stringify` carry unchanged: when the `/start-login`
(resp. `/start-register`) answer parses to `[options, id]`, every Number
inside `id` being a safe integer (an `id` without Numbers, such as a string
with any characters, included), and the run reaches its `/finish-login`
(resp. `/finish-register`) request, the body of that request is JSON text
that parses to a two-element array whose first element is exactly `id`. -/
theorem C3_safe_id_is_sent_back (w : World) (t : Nat) (r : Request) (status : Nat)
    (body : String) (options id : JSVal) :
    (w.fetch (startLogin w t) = .response status body →
      JSON.parse w.numberOf body = some (.arr [options, id]) →
      JSON.numbersSafe id = true →
      Effect.fetch r ∈ (authenticate w t).trace → r.url = "/finish-login" →
      ∃ credential, JSON.parse w.numberOf r.body = some (.arr [id, credential])) ∧
    (w.fetch (startRegister w) = .response status body →
      JSON.parse w.numberOf body = some (.arr [options, id]) →
      JSON.numbersSafe id = true →
      Effect.fetch r ∈ (register_click w).trace → r.url = "/finish-register" →
      ∃ credential, JSON.parse w.numberOf r.body = some (.arr [id, credential])) := by
  constructor
  · intro hstart hparse hsafe hr hurl
    have hid := isJson_second w.numberOf body options id hparse hsafe
    obtain ⟨_, _, _, id1, c, hf, hp, _, _, rfl⟩ := finish_login_request w t r hr hurl
    obtain ⟨value, options1, hv, hd, _⟩ := prepare_ok _ _ _ _ _ hp
    rw [hstart] at hf
    cases hf
    rw [hparse] at hv
    cases hv
    simp only [destructure2, List.getD_cons_zero, List.getD_cons_succ, Except.ok.injEq,
      Prod.mk.injEq] at hd
    obtain ⟨_, rfl⟩ := hd
    exact parse_finishLoginBody w.numberOf _ c hid
  · intro hstart hparse hsafe hr hurl
    have hid := isJson_second w.numberOf body options id hparse hsafe
    obtain ⟨_, _, _, id1, c, hf, hp, _, _, rfl⟩ := finish_register_request w r hr hurl
    obtain ⟨value, options1, hv, hd, _⟩ := prepare_ok _ _ _ _ _ hp
    rw [hstart] at hf
    cases hf
    rw [hparse] at hv
    cases hv
    simp only [destructure2, List.getD_cons_zero, List.getD_cons_succ, Except.ok.injEq,
      Prod.mk.injEq] at hd
    obtain ⟨_, rfl⟩ := hd
    exact parse_finishRegisterBody w.numberOf _ c hid

/-- Witness of the amended C3: a ceremony id holding a quote, a backslash
and a line feed comes back as the first element of both finish bodies. -/
theorem C3_witness :
    (∃ credential, JSON.parse quotedIdWorld.numberOf quotedFinishLogin.body
        = some (.arr [.str "c\"1\\\n", credential])) ∧
    (∃ credential, JSON.parse quotedIdWorld.numberOf quotedFinishRegister.body
        = some (.arr [.str "c\"1\\\n", credential])) :=
  ⟨(C3_safe_id_is_sent_back quotedIdWorld 0 quotedFinishLogin 200
      "[\x7b\"publicKey\":\x7b\"challenge\":\"AAA\",\"allowCredentials\":[]\x7d\x7d,\"c\\\"1\\\\\\n\"]"
      (.obj [("publicKey", .obj [("challenge", .str "AAA"), ("allowCredentials", .arr [])])])
      (.str "c\"1\\\n")).1 rfl rfl rfl (by
        have e : (authenticate quotedIdWorld 0).trace
          = [.fetch (post "/start-login" "\x7b\"name\":\"alice\"\x7d"),
             .credentialsGet (.obj [("publicKey", .obj [("challenge", .u8a [0, 0]),
               ("allowCredentials", .arr [])])]),
             .fetch quotedFinishLogin] := rfl
        rw [e]
        simp) rfl,
   (C3_safe_id_is_sent_back quotedIdWorld 0 quotedFinishRegister 200
      "[\x7b\"publicKey\":\x7b\"challenge\":\"AAA\",\"user\":\x7b\"id\":\"AQ\"\x7d\x7d\x7d,\"c\\\"1\\\\\\n\"]"
      (.obj [("publicKey", .obj [("challenge", .str "AAA"),
        ("user", .obj [("id", .str "AQ")])])])
      (.str "c\"1\\\n")).2 rfl rfl rfl (by
        have e : (register_click quotedIdWorld).trace
          = [.fetch (post "/start-register" "\x7b\"name\":\"alice\"\x7d"),
             .credentialsCreate (.obj [("publicKey", .obj [("challenge", .u8a [0, 0]),
               ("user", .obj [("id", .u8a [1])])])]),
             .fetch quotedFinishRegister] := rfl
        rw [e]
        simp) rfl⟩

end LoginJs
